import Mathlib

/-!
Verification of the 3pio pytest adapter (src/internal/adapters/pytest_adapter.py).

The adapter observes pytest lifecycle callbacks and appends JSON events to an
append-only IPC sink.  We give a shallow embedding: the module-level state
(`_is_worker`, `_reporter`) together with the sink contents form an `Adapter`;
each pytest hook becomes a pure function on `Adapter`; `send_event` becomes an
append to the sink list (the sink's emission order is the list order; the
informational timestamp and the debug log are not modelled).  pytest `Item`
objects are represented by the file path `get_file_path` extracts from them,
and `TestReport` objects by the fields the adapter reads: nodeid, phase name,
outcome (exactly one of passed/failed/skipped, as in pytest), the optional
`wasxfail` attribute, `longrepr` (None, a string, or a 3-tuple) and the
optional `duration` attribute.  Durations and clock values are rationals.
-/

namespace ThreePio

/-- Embedding of Python's `nodeid.split('::')` on character lists: scan left to
right, cutting at each (non-overlapping) occurrence of the two-character
separator `::`. -/
def splitDD : List Char → List (List Char)
  | [] => [[]]
  | ':' :: ':' :: rest => [] :: splitDD rest
  | c :: rest =>
    match splitDD rest with
    | [] => [[c]]
    | x :: xs => (c :: x) :: xs

/-- `nodeid.split('::')` as a function on `String`. -/
def pySplitDD (s : String) : List String :=
  (splitDD s.data).map (fun l => String.mk l)

/-- `ThreepioReporter.get_group_id`: `':'.join(hierarchy)`. -/
def get_group_id : List String → String
  | [] => ""
  | [x] => x
  | x :: xs => x ++ ":" ++ get_group_id xs

/-- `ThreepioReporter.parse_test_hierarchy`: split the nodeid on `::` into
`(file_path, suite_chain, test_name)`. -/
def parse_test_hierarchy (nodeid : String) : String × List String × String :=
  let parts := pySplitDD nodeid
  let file_path := parts.headD ""
  if parts.length = 2 then
    (file_path, [], parts.getD 1 "")
  else if parts.length = 3 then
    (file_path, [parts.getD 1 ""], parts.getD 2 "")
  else
    (file_path, if 2 < parts.length then (parts.drop 1).dropLast else [],
      parts.getLastD "")

/-- `ThreepioReporter.build_hierarchy_from_file`. -/
def build_hierarchy_from_file (file_path : String) (suite_chain : List String) :
    List String :=
  [file_path] ++ suite_chain

/-- One entry of the list built by `ThreepioReporter.discover_groups`. -/
structure GroupInfo where
  hierarchy : List String
  name : String
  parent_names : List String
deriving DecidableEq

/-- `ThreepioReporter.discover_groups`: the file itself is a group with empty
parents, then each suite-chain element is a group whose parents are the file
plus the preceding suite names. -/
def discover_groups (file_path : String) (suite_chain : List String) :
    List GroupInfo :=
  ⟨[file_path], file_path, []⟩ ::
    (List.range suite_chain.length).map (fun i =>
      let parent_names := file_path :: suite_chain.take i
      let group_name := suite_chain.getD i ""
      ⟨parent_names ++ [group_name], group_name, parent_names⟩)

/-- pytest report outcome: a `TestReport` carries exactly one of
passed/failed/skipped (its `outcome` field). -/
inductive Outcome
  | passed
  | failed
  | skipped
deriving DecidableEq

/-- The shape of `report.longrepr`: `None`, a plain string, or the 3-tuple
`(category, condition, reason)` used for skips. -/
inductive LongRepr
  | noRepr
  | strRepr (s : String)
  | tupRepr (category condition reason : String)
deriving DecidableEq

/-- Python truthiness of `report.longrepr` (`None` and `""` are falsy, a
non-empty string or a tuple is truthy). -/
def truthyLongRepr : LongRepr → Bool
  | .noRepr => false
  | .strRepr s => !(s == "")
  | .tupRepr _ _ _ => true

/-- Python's `str()` applied to a longrepr value. -/
def pyStrLongRepr : LongRepr → String
  | .noRepr => "None"
  | .strRepr s => s
  | .tupRepr a b c => "('" ++ a ++ "', '" ++ b ++ "', '" ++ c ++ "')"

/-- The fields of a pytest `TestReport` that the adapter reads. -/
structure TestReport where
  nodeid : String
  phase : String
  outcome : Outcome
  wasxfail : Option String
  longrepr : LongRepr
  duration : Option ℚ
deriving DecidableEq

/-- `_extract_skip_reason`: tuple form yields its third component with a
conventional `Skipped: ` marker stripped from the front; string form is taken
verbatim; anything else degrades to `"Test skipped"`. -/
def extract_skip_reason (rep : TestReport) : String :=
  match rep.longrepr with
  | .tupRepr _ _ reason =>
    if reason.data.take 9 = "Skipped: ".data then reason.drop 9 else reason
  | .strRepr s => s
  | .noRepr => "Test skipped"

/-- `report.duration * 1000 if hasattr(report, 'duration') else 0`. -/
def durationMillis (rep : TestReport) : ℚ :=
  match rep.duration with
  | some d => d * 1000
  | none => 0

/-- Payload of a `testCase` event; optional dictionary keys are `Option`s. -/
structure TCPayload where
  testName : String
  parentNames : List String
  status : String
  duration : Option ℚ
  error : Option String
  skipReason : Option String
  skipPhase : Option String
  xfailReason : Option String
deriving DecidableEq

/-- The `totals` object of a `testGroupResult` payload. -/
structure Totals where
  total : Nat
  passed : Nat
  failed : Nat
  skipped : Nat
  xfailed : Nat
  xpassed : Nat
deriving DecidableEq

/-- One record written to the IPC sink (payload shapes per event type; the
informational timestamp is not modelled). -/
inductive Event
  | collectionStart
  | collectionError (filePath : String) (error : String)
  | collectionFinish (collected : Nat)
  | testGroupDiscovered (groupName : String) (parentNames : List String)
  | testGroupStart (groupName : String) (parentNames : List String)
  | testCase (p : TCPayload)
  | testGroupResult (groupName : String) (parentNames : List String)
      (status : String) (duration : Option ℚ) (totals : Totals)
deriving DecidableEq

/-- Per-file counters held in `_reporter.test_results[file_path]`.  The dict
created in `pytest_runtest_protocol` omits the xfailed/xpassed keys, but every
later read of those keys uses `.get(key, 0)`, so zero-initialising them here
is observationally identical. -/
structure Results where
  passed : Nat := 0
  failed : Nat := 0
  skipped : Nat := 0
  xfailed : Nat := 0
  xpassed : Nat := 0
  failed_tests : List (String × ℚ) := []
deriving DecidableEq

/-- An entry of `file_groups[fp]['tests']`. -/
structure TestEntry where
  name : String
  status : String
  duration : ℚ
deriving DecidableEq

/-- `file_groups[fp]`: start timestamp plus recorded tests. -/
structure FileGroup where
  start_time : ℚ
  tests : List TestEntry
deriving DecidableEq

/-- Insertion-ordered association list standing in for a Python dict. -/
def alookup {α : Type} : List (String × α) → String → Option α
  | [], _ => none
  | (k', v) :: rest, k => if k' = k then some v else alookup rest k

/-- Dict assignment: replace in place, or append a new key. -/
def aset {α : Type} : List (String × α) → String → α → List (String × α)
  | [], k, v => [(k, v)]
  | (k', v') :: rest, k, v =>
    if k' = k then (k, v) :: rest else (k', v') :: aset rest k v

/-- The mutable state of a `ThreepioReporter` instance (the stdout/stderr
shim and debug log are I/O-only and not modelled). -/
structure Reporter where
  test_files : List String
  test_results : List (String × Results)
  discovered_groups : List String
  group_starts : List String
  file_groups : List (String × FileGroup)
  processed_skips : List (String × String)
  current_test_file : Option String
deriving DecidableEq

/-- Freshly constructed `ThreepioReporter`. -/
def initReporter : Reporter :=
  ⟨[], [], [], [], [], [], none⟩

/-- Body of the `ensure_groups_discovered` loop: skip an already-discovered
group, otherwise record its identity and emit `testGroupDiscovered`. -/
def discStep (acc : Reporter × List Event) (g : GroupInfo) : Reporter × List Event :=
  let gid := get_group_id g.hierarchy
  if gid ∈ acc.1.discovered_groups then acc
  else
    ({ acc.1 with discovered_groups := gid :: acc.1.discovered_groups },
      acc.2 ++ [Event.testGroupDiscovered g.name g.parent_names])

/-- `ThreepioReporter.ensure_groups_discovered`: for each candidate group not
yet discovered, record it and emit a `testGroupDiscovered` event.  Returns the
updated reporter plus the newly emitted events in order. -/
def ensure_groups_discovered (r : Reporter) (file_path : String)
    (suite_chain : List String) : Reporter × List Event :=
  (discover_groups file_path suite_chain).foldl discStep (r, [])

/-- `ThreepioReporter.ensure_group_started`: if the identity is new, record it
and emit a `testGroupStart` for the first discovery record whose identity
matches.  Call sites always pass a non-empty hierarchy (`hierarchy[0]` would
raise otherwise); the `headD`/`drop` rendering is exact on those inputs. -/
def ensure_group_started (r : Reporter) (hierarchy : List String) :
    Reporter × List Event :=
  let gid := get_group_id hierarchy
  if gid ∈ r.group_starts then (r, [])
  else
    let r1 := { r with group_starts := gid :: r.group_starts }
    match (discover_groups (hierarchy.headD "") (hierarchy.drop 1)).find?
        (fun g => get_group_id g.hierarchy == gid) with
    | some g => (r1, [Event.testGroupStart g.name g.parent_names])
    | none => (r1, [])

/-- Body of the ancestor-start loop: start the hierarchy of length `i + 1`. -/
def startStep (file_path : String) (suite_chain : List String)
    (acc : Reporter × List Event) (i : Nat) : Reporter × List Event :=
  let st := ensure_group_started acc.1 (file_path :: suite_chain.take i)
  (st.1, acc.2 ++ st.2)

/-- The `for i in range(len(suite_chain) + 1)` loop that starts every
ancestor hierarchy before a leaf event. -/
def start_all_ancestors (r : Reporter) (file_path : String)
    (suite_chain : List String) : Reporter × List Event :=
  (List.range (suite_chain.length + 1)).foldl (startStep file_path suite_chain)
    (r, [])

/-- `test_results[fp] = f(test_results[fp])` (callers guarantee the key). -/
def bumpResults (r : Reporter) (fp : String) (f : Results → Results) :
    Reporter :=
  let v := f ((alookup r.test_results fp).getD {})
  { r with test_results := aset r.test_results fp v }

/-- `if file_path in file_groups: file_groups[fp]['tests'].append(t)`. -/
def trackTest (r : Reporter) (fp : String) (t : TestEntry) : Reporter :=
  match alookup r.file_groups fp with
  | some fg =>
    { r with file_groups := aset r.file_groups fp ⟨fg.start_time, fg.tests ++ [t]⟩ }
  | none => r

/-- Lines 497-499: create the per-file results dict on first sight. -/
def init_results (r0 : Reporter) (file_path : String) : Reporter :=
  if (alookup r0.test_results file_path).isSome then r0
  else { r0 with test_results := aset r0.test_results file_path {} }

/-- Lines 554-572 of `pytest_runtest_logreport`: the call-phase `status`
if/elif chain, which both picks the status string and bumps the matching
per-file counter. -/
def classify_call (r : Reporter) (rep : TestReport) (file_path : String) :
    String × Reporter :=
  if rep.wasxfail.isSome then
    if rep.outcome = Outcome.passed then
      ("XPASS", bumpResults r file_path (fun res => { res with xpassed := res.xpassed + 1 }))
    else
      ("XFAIL", bumpResults r file_path (fun res => { res with xfailed := res.xfailed + 1 }))
  else if rep.outcome = Outcome.passed then
    ("PASS", bumpResults r file_path (fun res => { res with passed := res.passed + 1 }))
  else if rep.outcome = Outcome.failed then
    ("FAIL", bumpResults r file_path (fun res => { res with failed := res.failed + 1 }))
  else if rep.outcome = Outcome.skipped then
    ("SKIP", bumpResults r file_path (fun res => { res with skipped := res.skipped + 1 }))
  else ("UNKNOWN", r)

/-- Lines 506-546: the skip-emission block, reached when a non-xfail report
is skipped in the setup or call phase and the (file, test) pair is new. -/
def skip_branch (r : Reporter) (rep : TestReport) : Reporter × List Event :=
  let parsed := parse_test_hierarchy rep.nodeid
  let file_path := parsed.1
  let suite_chain := parsed.2.1
  let test_name := parsed.2.2
  let r1 := { r with processed_skips := (file_path, test_name) :: r.processed_skips }
  let r2 := bumpResults r1 file_path (fun res => { res with skipped := res.skipped + 1 })
  let d1 := ensure_groups_discovered r2 file_path suite_chain
  let d2 := start_all_ancestors d1.1 file_path suite_chain
  let parent_names := build_hierarchy_from_file file_path suite_chain
  let ev := Event.testCase
    ⟨test_name, parent_names, "SKIP", none, none,
      some (extract_skip_reason rep), some rep.phase, none⟩
  (trackTest d2.1 file_path ⟨test_name, "SKIP", 0⟩, d1.2 ++ d2.2 ++ [ev])

/-- Lines 552-618: the call-phase classification and emission block. -/
def call_branch (r : Reporter) (rep : TestReport) : Reporter × List Event :=
  let parsed := parse_test_hierarchy rep.nodeid
  let file_path := parsed.1
  let suite_chain := parsed.2.1
  let test_name := parsed.2.2
  let sb := classify_call r rep file_path
  let d1 := ensure_groups_discovered sb.2 file_path suite_chain
  let d2 := start_all_ancestors d1.1 file_path suite_chain
  let parent_names := build_hierarchy_from_file file_path suite_chain
  let err : Option String :=
    if rep.outcome = Outcome.failed ∧ truthyLongRepr rep.longrepr then
      some (pyStrLongRepr rep.longrepr)
    else none
  let xr : Option String :=
    if rep.wasxfail.isSome then some (rep.wasxfail.getD "") else none
  let r2 := if rep.outcome = Outcome.failed then
      bumpResults d2.1 file_path (fun res =>
        { res with failed_tests := res.failed_tests ++ [(test_name, durationMillis rep)] })
    else d2.1
  let r3 := trackTest r2 file_path ⟨test_name, sb.1, durationMillis rep⟩
  (r3, d1.2 ++ d2.2 ++ [Event.testCase
    ⟨test_name, parent_names, sb.1, some (durationMillis rep), err, none, none, xr⟩])

/-- Core of `pytest_runtest_logreport` once the worker/reporter guards have
passed: classify the report and emit the resulting events (returned in
emission order). -/
def logreport_core (r0 : Reporter) (rep : TestReport) : Reporter × List Event :=
  let parsed := parse_test_hierarchy rep.nodeid
  let file_path := parsed.1
  let test_name := parsed.2.2
  let r := init_results r0 file_path
  if rep.outcome = Outcome.skipped ∧ (rep.phase = "setup" ∨ rep.phase = "call") ∧
      ¬rep.wasxfail.isSome then
    if (file_path, test_name) ∈ r.processed_skips then (r, [])
    else skip_branch r rep
  else if ¬rep.phase = "call" then (r, [])
  else call_branch r rep

/-- The `status` priority chain of `pytest_sessionfinish`. -/
def groupStatusOf (res : Results) : String :=
  if 0 < res.failed then "FAIL"
  else if 0 < res.passed then "PASS"
  else if 0 < res.skipped then "SKIP"
  else "UNKNOWN"

/-- The `testGroupResult` events emitted by `pytest_sessionfinish`, one per
recorded test file. -/
def sessionfinish_events (r : Reporter) (now : ℚ) : List Event :=
  r.test_files.map (fun fp =>
    let res := (alookup r.test_results fp).getD {}
    let dur : Option ℚ :=
      match alookup r.file_groups fp with
      | some fg => some ((now - fg.start_time) * 1000)
      | none => none
    Event.testGroupResult fp [] (groupStatusOf res) dur
      ⟨res.passed + res.failed + res.skipped + res.xfailed + res.xpassed,
        res.passed, res.failed, res.skipped, res.xfailed, res.xpassed⟩)

/-- `is_xdist_worker`: the PYTEST_XDIST_WORKER environment variable is set. -/
def is_xdist_worker (worker_env : Option String) : Bool :=
  worker_env.isSome

/-- Module-level state of the plugin (`_is_worker`, `_reporter`) together with
the IPC sink contents, in emission order. -/
structure Adapter where
  is_worker : Bool
  reporter : Option Reporter
  sink : List Event
deriving DecidableEq

/-- Module state before `pytest_configure` runs. -/
def initAdapter : Adapter :=
  ⟨false, none, []⟩

/-- `pytest_configure`: cache the worker flag; in a worker stay silent, else
construct the reporter, start collection capture and emit `collectionStart`. -/
def pytest_configure (a : Adapter) (worker_env : Option String) : Adapter :=
  if is_xdist_worker worker_env then { a with is_worker := true }
  else
    { is_worker := false,
      reporter := some { initReporter with current_test_file := some "__collection__" },
      sink := a.sink ++ [Event.collectionStart] }

/-- The fields of a pytest `CollectReport` the adapter reads. -/
structure CollectReport where
  failed : Bool
  nodeid : String
  longrepr : LongRepr
deriving DecidableEq

/-- The events `pytest_collectreport` sends: a `collectionError` on a failed
collect report, nothing otherwise. -/
def collectreport_events (rep : CollectReport) : List Event :=
  if rep.failed then
    [Event.collectionError
      (if rep.nodeid = "" then "__collection__" else rep.nodeid)
      (pyStrLongRepr rep.longrepr)]
  else []

/-- `pytest_collectreport`. -/
def pytest_collectreport (a : Adapter) (rep : CollectReport) : Adapter :=
  if a.is_worker then a
  else
    match a.reporter with
    | none => a
    | some _ => { a with sink := a.sink ++ collectreport_events rep }

/-- `pytest_collection_finish`. -/
def pytest_collection_finish (a : Adapter) (collected : Nat) : Adapter :=
  if a.is_worker then a
  else
    match a.reporter with
    | none => a
    | some _ => { a with sink := a.sink ++ [Event.collectionFinish collected] }

/-- Core of `pytest_runtest_protocol`: on first sight of a file, register it,
discover and start the file group and record the file-group start time; on a
later sight just switch the captured current file. -/
def protocol_core (r : Reporter) (file_path : String) (now : ℚ) :
    Reporter × List Event :=
  if file_path ∈ r.test_files then
    (if ¬r.current_test_file = some file_path then
      { r with current_test_file := some file_path } else r, [])
  else
    let r1 := { r with
                test_files := r.test_files ++ [file_path],
                test_results := aset r.test_results file_path {} }
    let d1 := ensure_groups_discovered r1 file_path []
    let d2 := ensure_group_started d1.1 [file_path]
    let r4 := { d2.1 with
                file_groups := aset d2.1.file_groups file_path ⟨now, []⟩,
                current_test_file := some file_path }
    (r4, d1.2 ++ d2.2)

/-- `pytest_runtest_protocol`, with the `Item` represented by the file path
`get_file_path` computes from it and `time.time()` passed in as `now`. -/
def pytest_runtest_protocol (a : Adapter) (file_path : String) (now : ℚ) :
    Adapter :=
  if a.is_worker then a
  else
    match a.reporter with
    | none => a
    | some r =>
      let c := protocol_core r file_path now
      { a with reporter := some c.1, sink := a.sink ++ c.2 }

/-- `pytest_runtest_logreport` at module level. -/
def pytest_runtest_logreport (a : Adapter) (rep : TestReport) : Adapter :=
  if a.is_worker then a
  else
    match a.reporter with
    | none => a
    | some r =>
      let c := logreport_core r rep
      { a with reporter := some c.1, sink := a.sink ++ c.2 }

/-- `pytest_sessionfinish` at module level (reporter state is not mutated). -/
def pytest_sessionfinish (a : Adapter) (now : ℚ) : Adapter :=
  if a.is_worker then a
  else
    match a.reporter with
    | none => a
    | some r => { a with sink := a.sink ++ sessionfinish_events r now }

/-- `pytest_unconfigure`. -/
def pytest_unconfigure (a : Adapter) : Adapter :=
  if a.is_worker then a
  else { a with reporter := none }

/-- One framework callback, with the data the adapter reads from it. -/
inductive Callback
  | configure (worker_env : Option String)
  | collectreport (rep : CollectReport)
  | collection_finish (collected : Nat)
  | runtest_protocol (file_path : String) (now : ℚ)
  | runtest_logreport (rep : TestReport)
  | sessionfinish (now : ℚ)
  | unconfigure
deriving DecidableEq

/-- Dispatch one callback. -/
def step (a : Adapter) : Callback → Adapter
  | .configure env => pytest_configure a env
  | .collectreport rep => pytest_collectreport a rep
  | .collection_finish n => pytest_collection_finish a n
  | .runtest_protocol fp now => pytest_runtest_protocol a fp now
  | .runtest_logreport rep => pytest_runtest_logreport a rep
  | .sessionfinish now => pytest_sessionfinish a now
  | .unconfigure => pytest_unconfigure a

/-- Run a sequence of callbacks from a given module state. -/
def runFrom (a : Adapter) : List Callback → Adapter
  | [] => a
  | c :: cs => runFrom (step a c) cs

/-- Run a whole process: callbacks applied to the pristine module state. -/
def run (tr : List Callback) : Adapter :=
  runFrom initAdapter tr

/-- Is this event a SKIP `testCase` for the (file, test-name) pair?  (The
file of a test-case event is the head of its `parentNames` chain.) -/
def isSkipCaseFor (fp tn : String) : Event → Bool
  | .testCase p =>
    p.status == "SKIP" && p.testName == tn && p.parentNames.headD "" == fp
  | _ => false

/-- Number of SKIP `testCase` events for the pair in a sink. -/
def countSkip (fp tn : String) (evs : List Event) : Nat :=
  (evs.filter (isSkipCaseFor fp tn)).length

/-- A callback that would enter the skip-emission branch for this
(file, test-name) pair: a log report whose nodeid parses to the pair, that is
skipped in the setup or call phase and carries no expected-failure marker. -/
def qualifyingSkipP (fp tn : String) : Callback → Prop
  | .runtest_logreport rep =>
    rep.outcome = Outcome.skipped ∧ (rep.phase = "setup" ∨ rep.phase = "call") ∧
      rep.wasxfail = none ∧ (parse_test_hierarchy rep.nodeid).1 = fp ∧
      (parse_test_hierarchy rep.nodeid).2.2 = tn
  | _ => False

instance (fp tn : String) (c : Callback) : Decidable (qualifyingSkipP fp tn c) := by
  cases c <;> (simp only [qualifyingSkipP]; infer_instance)

/-- Session (re/un)configuration callbacks, excluded from the single-session
traces of the skip-uniqueness property. -/
def isConfigOrUnconfig : Callback → Bool
  | .configure _ => true
  | .unconfigure => true
  | _ => false

/-- The `testGroupDiscovered` event whose payload describes the hierarchy
chain `c` (its group name is the last element, its parents the rest). -/
def discEventFor (c : List String) : Event :=
  Event.testGroupDiscovered (c.getLastD "") c.dropLast

/-- The `testGroupStart` event whose payload describes the chain `c`. -/
def startEventFor (c : List String) : Event :=
  Event.testGroupStart (c.getLastD "") c.dropLast

/-- A non-empty hierarchy chain none of whose segments contains the `:`
join delimiter (so its joined id does not collide with any other such
chain). -/
def goodChain (c : List String) : Prop :=
  c ≠ [] ∧ ∀ s ∈ c, ':' ∉ s.data

/-- A callback whose derived group-name segments (file path and suite names)
are free of the `:` join delimiter. -/
def goodCallback : Callback → Prop
  | .runtest_protocol fp _ => ':' ∉ fp.data
  | .runtest_logreport rep =>
    ':' ∉ (parse_test_hierarchy rep.nodeid).1.data ∧
      ∀ s ∈ (parse_test_hierarchy rep.nodeid).2.1, ':' ∉ s.data
  | _ => True

instance (c : Callback) : Decidable (goodCallback c) := by
  cases c <;> (simp only [goodCallback]; infer_instance)

/-- Every identity in the discovered set is the joined id of a delimiter-free
chain whose discovery event is already in the sink. -/
def DiscInv (d : List String) (sink : List Event) : Prop :=
  ∀ gid ∈ d, ∃ c, goodChain c ∧ get_group_id c = gid ∧ discEventFor c ∈ sink

/-- Every identity in the started set is the joined id of a delimiter-free
chain whose start event is already in the sink. -/
def StartInv (st : List String) (sink : List Event) : Prop :=
  ∀ gid ∈ st, ∃ c, goodChain c ∧ get_group_id c = gid ∧ startEventFor c ∈ sink

/-- The registry invariant of a live adapter. -/
def AInv (a : Adapter) : Prop :=
  ∀ r, a.reporter = some r →
    DiscInv r.discovered_groups a.sink ∧ StartInv r.group_starts a.sink

/-- Ancestor ordering in a sink: every `testCase` is preceded by discovery
and start events for every non-empty prefix of its parent chain. -/
def SinkOK (sink : List Event) : Prop :=
  ∀ pre p post, sink = pre ++ Event.testCase p :: post →
    ∀ k, 0 < k → k ≤ p.parentNames.length →
      discEventFor (p.parentNames.take k) ∈ pre ∧
      startEventFor (p.parentNames.take k) ∈ pre

/-- Concrete reporter used by the C3 witness: one file with a failed and a
passed test recorded. -/
def witnessReporterC3 : Reporter :=
  ⟨["f.py"], [("f.py", { passed := 1, failed := 1 })], [], [], [], [], none⟩

/-- Concrete reporter used by the C10 witness: one file, one xfailed and one
xpassed outcome recorded. -/
def witnessReporterC10 : Reporter :=
  ⟨["f.py"], [("f.py", { xfailed := 1, xpassed := 1 })], [], [], [], [], none⟩

/-- A failed call report whose longrepr is empty (falsy). -/
def cxReportFail : TestReport :=
  ⟨"f.py::t", "call", Outcome.failed, none, LongRepr.noRepr, none⟩

/-- A failed call report with a non-empty longrepr. -/
def wReportFailRepr : TestReport :=
  ⟨"f.py::t", "call", Outcome.failed, none, LongRepr.strRepr "assert 1 == 2",
    none⟩

/-- A setup-phase skip report. -/
def cxReportSkip : TestReport :=
  ⟨"f.py::t", "setup", Outcome.skipped, none, LongRepr.noRepr, none⟩

/-- A passed call report. -/
def wReportPass : TestReport :=
  ⟨"f.py::t", "call", Outcome.passed, none, LongRepr.noRepr, none⟩

/-- A report whose only skip happens in the teardown phase. -/
def cxReportTeardown : TestReport :=
  ⟨"f.py::t", "teardown", Outcome.skipped, none, LongRepr.noRepr, none⟩

/-- Setup-phase and call-phase skip reports for the same test. -/
def wReportSkipSetup : TestReport :=
  ⟨"f.py::t", "setup", Outcome.skipped, none,
    LongRepr.tupRepr "f.py" "1" "Skipped: nope", none⟩

/-- Call-phase skip report for the same test as `wReportSkipSetup`. -/
def wReportSkipCall : TestReport :=
  ⟨"f.py::t", "call", Outcome.skipped, none,
    LongRepr.tupRepr "f.py" "1" "Skipped: nope", none⟩

/-- Concrete inputs for the ancestor-ordering analysis: a well-behaved trace
(no `:` in any derived segment) and a colliding trace whose first report's
file path `a:b` joins to the same identity as the second report's chain
`["a", "b"]`. -/
def wRepC2 : TestReport :=
  ⟨"f.py::C::t", "call", Outcome.passed, none, LongRepr.noRepr, none⟩

def wTraceC2 : List Callback :=
  [Callback.configure none, Callback.runtest_logreport wRepC2]

def wPreC2 : List Event :=
  [Event.collectionStart,
    Event.testGroupDiscovered "f.py" [],
    Event.testGroupDiscovered "C" ["f.py"],
    Event.testGroupStart "f.py" [],
    Event.testGroupStart "C" ["f.py"]]

def wPayloadC2 : TCPayload :=
  ⟨"t", ["f.py", "C"], "PASS", some 0, none, none, none, none⟩

def cxRepT1 : TestReport :=
  ⟨"a:b::t1", "call", Outcome.passed, none, LongRepr.noRepr, none⟩

def cxRepT2 : TestReport :=
  ⟨"a::b::t2", "call", Outcome.passed, none, LongRepr.noRepr, none⟩

def cxTraceC2 : List Callback :=
  [Callback.configure none, Callback.runtest_logreport cxRepT1,
    Callback.runtest_logreport cxRepT2]

def cxPreC2 : List Event :=
  [Event.collectionStart,
    Event.testGroupDiscovered "a:b" [],
    Event.testGroupStart "a:b" [],
    Event.testCase ⟨"t1", ["a:b"], "PASS", some 0, none, none, none, none⟩,
    Event.testGroupDiscovered "a" [],
    Event.testGroupStart "a" []]

def cxPayloadC2 : TCPayload :=
  ⟨"t2", ["a", "b"], "PASS", some 0, none, none, none, none⟩

/-- The hierarchy chain of length `k + 1`: file plus the first `k` suites. -/
def chainOf (file_path : String) (suite_chain : List String) (k : Nat) :
    List String :=
  file_path :: suite_chain.take k

/-- `':'.join` on raw character lists. -/
def joinDD : List (List Char) → List Char
  | [] => []
  | [x] => x
  | x :: xs => x ++ ':' :: joinDD xs

/-! ### Basic facts about the group-identity join -/

lemma get_group_id_cons (x : String) (xs : List String) (h : xs ≠ []) :
    get_group_id (x :: xs) = x ++ ":" ++ get_group_id xs := by
  cases xs with
  | nil => exact absurd rfl h
  | cons y ys => rfl

lemma get_group_id_append_single (l : List String) (x : String) (h : l ≠ []) :
    get_group_id (l ++ [x]) = get_group_id l ++ ":" ++ x := by
  induction l with
  | nil => exact absurd rfl h
  | cons y ys ih =>
    cases ys with
    | nil => rfl
    | cons z zs =>
      rw [List.cons_append, get_group_id_cons y ((z :: zs) ++ [x]) (by simp),
        ih (by simp), get_group_id_cons y (z :: zs) (by simp)]
      simp [String.append_assoc]

lemma length_lt_get_group_id_append (l : List String) (x : String) (h : l ≠ []) :
    (get_group_id l).length < (get_group_id (l ++ [x])).length := by
  rw [get_group_id_append_single l x h]
  have hc : (":" : String).length = 1 := rfl
  simp only [String.length_append, hc]
  omega

lemma chainOf_succ (f : String) (sc : List String) (k : Nat) (hk : k < sc.length) :
    chainOf f sc (k + 1) = chainOf f sc k ++ [sc.getD k ""] := by
  simp only [chainOf, List.take_succ]
  rw [List.getElem?_eq_getElem hk]
  simp [List.getD_eq_getElem?_getD, List.getElem?_eq_getElem hk]

lemma chainOf_len_lt (f : String) (sc : List String) {k m : Nat} (hkm : k < m)
    (hm : m ≤ sc.length) :
    (get_group_id (chainOf f sc k)).length <
      (get_group_id (chainOf f sc m)).length := by
  induction m with
  | zero => omega
  | succ n ih =>
    have hn : n < sc.length := by omega
    rw [chainOf_succ f sc n hn]
    rcases Nat.lt_succ_iff_lt_or_eq.mp hkm with h | h
    · exact lt_trans (ih h (by omega))
        (length_lt_get_group_id_append _ _ (by simp [chainOf]))
    · subst h
      exact length_lt_get_group_id_append _ _ (by simp [chainOf])

lemma chainOf_id_ne (f : String) (sc : List String) {k m : Nat} (hkm : k ≠ m)
    (hk : k ≤ sc.length) (hm : m ≤ sc.length) :
    get_group_id (chainOf f sc k) ≠ get_group_id (chainOf f sc m) := by
  intro h
  rcases Nat.lt_or_ge k m with hlt | hge
  · exact absurd (congrArg String.length h) (Nat.ne_of_lt (chainOf_len_lt f sc hlt hm))
  · have hlt : m < k := by omega
    exact absurd (congrArg String.length h.symm)
      (Nat.ne_of_lt (chainOf_len_lt f sc hlt hk))

/-! ### Injectivity of the join on delimiter-free chains -/

lemma data_get_group_id : ∀ l : List String,
    (get_group_id l).data = joinDD (l.map String.data)
  | [] => rfl
  | [_] => rfl
  | x :: y :: ys => by
    rw [get_group_id_cons x (y :: ys) (by simp)]
    show (x ++ ":" ++ get_group_id (y :: ys)).data =
      x.data ++ ':' :: joinDD ((y :: ys).map String.data)
    rw [String.data_append, String.data_append, ← data_get_group_id (y :: ys)]
    simp

lemma joinDD_head_eq {a r : List Char} :
    ∀ {b s : List Char}, ':' ∉ a → ':' ∉ b →
      a ++ ':' :: r = b ++ ':' :: s → a = b ∧ r = s := by
  induction a with
  | nil =>
    intro b s _ hb h
    cases b with
    | nil => simpa using h
    | cons d bs =>
      simp only [List.nil_append, List.cons_append, List.cons.injEq] at h
      refine absurd ?_ hb
      rw [← h.1]
      exact List.mem_cons_self ':' bs
  | cons c as ih =>
    intro b s ha hb h
    cases b with
    | nil =>
      simp only [List.cons_append, List.nil_append, List.cons.injEq] at h
      refine absurd ?_ ha
      rw [h.1]
      exact List.mem_cons_self ':' as
    | cons d bs =>
      simp only [List.cons_append, List.cons.injEq] at h
      obtain ⟨hcd, htl⟩ := h
      obtain ⟨h1, h2⟩ := ih (fun hm => ha (List.mem_cons_of_mem c hm))
        (fun hm => hb (List.mem_cons_of_mem d hm)) htl
      exact ⟨by rw [hcd, h1], h2⟩

lemma joinDD_inj : ∀ l1 l2 : List (List Char), l1 ≠ [] → l2 ≠ [] →
    (∀ x ∈ l1, ':' ∉ x) → (∀ x ∈ l2, ':' ∉ x) → joinDD l1 = joinDD l2 → l1 = l2
  | [], _, h1, _, _, _, _ => absurd rfl h1
  | _ :: _, [], _, h2, _, _, _ => absurd rfl h2
  | [x], [y], _, _, _, _, h => by rw [show x = y from h]
  | [x], y :: z :: zs, _, _, c1, c2, h => by
    have hx : ':' ∈ x := by
      rw [show joinDD [x] = x from rfl] at h
      rw [show joinDD (y :: z :: zs) = y ++ ':' :: joinDD (z :: zs) from rfl] at h
      rw [h]
      simp
    exact absurd hx (c1 x (by simp))
  | x :: y :: ys, [z], _, _, c1, c2, h => by
    have hz : ':' ∈ z := by
      rw [show joinDD [z] = z from rfl] at h
      rw [show joinDD (x :: y :: ys) = x ++ ':' :: joinDD (y :: ys) from rfl] at h
      rw [← h]
      simp
    exact absurd hz (c2 z (by simp))
  | x :: y :: ys, z :: w :: ws, _, _, c1, c2, h => by
    rw [show joinDD (x :: y :: ys) = x ++ ':' :: joinDD (y :: ys) from rfl,
      show joinDD (z :: w :: ws) = z ++ ':' :: joinDD (w :: ws) from rfl] at h
    obtain ⟨h1, h2⟩ := joinDD_head_eq (c1 x (by simp)) (c2 z (by simp)) h
    have := joinDD_inj (y :: ys) (w :: ws) (by simp) (by simp)
      (fun a ha => c1 a (List.mem_cons_of_mem x ha))
      (fun a ha => c2 a (List.mem_cons_of_mem z ha)) h2
    rw [h1, this]

lemma get_group_id_inj {l1 l2 : List String} (h1 : l1 ≠ []) (h2 : l2 ≠ [])
    (c1 : ∀ s ∈ l1, ':' ∉ s.data) (c2 : ∀ s ∈ l2, ':' ∉ s.data)
    (h : get_group_id l1 = get_group_id l2) : l1 = l2 := by
  have hd : joinDD (l1.map String.data) = joinDD (l2.map String.data) := by
    rw [← data_get_group_id, ← data_get_group_id, h]
  have hmap := joinDD_inj (l1.map String.data) (l2.map String.data)
    (by simpa using h1) (by simpa using h2)
    (by intro x hx; obtain ⟨s, hs, rfl⟩ := List.mem_map.mp hx; exact c1 s hs)
    (by intro x hx; obtain ⟨s, hs, rfl⟩ := List.mem_map.mp hx; exact c2 s hs) hd
  have hinj : Function.Injective String.data := fun _ _ hx => String.ext hx
  exact List.map_injective_iff.mpr hinj hmap

/-! ### C4: the hierarchy-resolver segment rule -/

/-- **C4.** For every qualified identifier, the resolver takes the first
`::`-segment as the file path and the last as the test name; with exactly 2
segments the suite chain is empty, with exactly 3 it is the singleton middle
segment, and with 4 or more it is the middle segments in their original
order.  (The resolver is the pure function `parse_test_hierarchy`.) -/
theorem hierarchy_resolver_segments (nodeid : String) :
    (parse_test_hierarchy nodeid).1 = (pySplitDD nodeid).headD "" ∧
    (parse_test_hierarchy nodeid).2.2 = (pySplitDD nodeid).getLastD "" ∧
    ((pySplitDD nodeid).length = 2 → (parse_test_hierarchy nodeid).2.1 = []) ∧
    ((pySplitDD nodeid).length = 3 →
      (parse_test_hierarchy nodeid).2.1 = [(pySplitDD nodeid).getD 1 ""]) ∧
    (4 ≤ (pySplitDD nodeid).length →
      (parse_test_hierarchy nodeid).2.1 = ((pySplitDD nodeid).drop 1).dropLast) := by
  refine ⟨?_, ?_, ?_, ?_, ?_⟩
  · simp only [parse_test_hierarchy]
    split_ifs <;> rfl
  · by_cases h2 : (pySplitDD nodeid).length = 2
    · obtain ⟨a, b, hab⟩ := List.length_eq_two.mp h2
      simp [parse_test_hierarchy, hab]
    · by_cases h3 : (pySplitDD nodeid).length = 3
      · obtain ⟨a, b, c, habc⟩ := List.length_eq_three.mp h3
        simp [parse_test_hierarchy, habc]
      · simp [parse_test_hierarchy, h2, h3]
  · intro h2
    simp [parse_test_hierarchy, h2]
  · intro h3
    have h2 : ¬(pySplitDD nodeid).length = 2 := by omega
    simp [parse_test_hierarchy, h2, h3]
  · intro h4
    have h2 : ¬(pySplitDD nodeid).length = 2 := by omega
    have h3 : ¬(pySplitDD nodeid).length = 3 := by omega
    have hgt : 2 < (pySplitDD nodeid).length := by omega
    simp [parse_test_hierarchy, h2, h3, hgt]

/-- Witness for C4 at the 4-segment identifier `f.py::A::B::t`. -/
theorem hierarchy_resolver_segments_witness :
    (4 ≤ (pySplitDD "f.py::A::B::t").length) ∧
    (parse_test_hierarchy "f.py::A::B::t").2.1 =
      ((pySplitDD "f.py::A::B::t").drop 1).dropLast :=
  ⟨by decide, (hierarchy_resolver_segments "f.py::A::B::t").2.2.2.2 (by decide)⟩

/-! ### C9: the joined identity key is not injective in general -/

/-- **C9 counterexample.** Two distinct hierarchy chains can share the same
joined identity key when a segment contains the `:` delimiter, so the joined
key is not a faithful equality key on arbitrary chains. -/
theorem group_id_conflates_distinct_chains :
    get_group_id ["a:b"] = get_group_id ["a", "b"] ∧
      (["a:b"] : List String) ≠ ["a", "b"] :=
  ⟨by decide, by decide⟩

/-- **C9 (amended).** The joined identity key is a faithful equality key on
non-empty chains whose segments are free of the `:` delimiter: two such
chains have equal keys iff they are equal segment by segment. -/
theorem group_id_faithful_on_delimiter_free {l1 l2 : List String}
    (h1 : l1 ≠ []) (h2 : l2 ≠ [])
    (c1 : ∀ s ∈ l1, ':' ∉ s.data) (c2 : ∀ s ∈ l2, ':' ∉ s.data) :
    get_group_id l1 = get_group_id l2 ↔ l1 = l2 :=
  ⟨fun h => get_group_id_inj h1 h2 c1 c2 h, fun h => by rw [h]⟩

/-- Witness for the amended C9. -/
theorem group_id_faithful_on_delimiter_free_witness :
    get_group_id ["f.py", "TestA"] = get_group_id ["f.py", "B"] ↔
      (["f.py", "TestA"] : List String) = ["f.py", "B"] :=
  group_id_faithful_on_delimiter_free (by decide) (by decide) (by decide) (by decide)

/-! ### C3 and C10: session-end group results -/

/-- **C3.** Every `testGroupResult` emitted at session end carries the
priority-derived status: FAIL if the group's failed count is positive, else
PASS if its passed count is positive, else SKIP if its skipped count is
positive, else UNKNOWN. -/
theorem group_result_status_priority (r : Reporter) (now : ℚ) (e : Event)
    (he : e ∈ sessionfinish_events r now) :
    ∃ fp st dur tot, e = Event.testGroupResult fp [] st dur tot ∧
      (1 ≤ ((alookup r.test_results fp).getD {}).failed → st = "FAIL") ∧
      (((alookup r.test_results fp).getD {}).failed = 0 →
        1 ≤ ((alookup r.test_results fp).getD {}).passed → st = "PASS") ∧
      (((alookup r.test_results fp).getD {}).failed = 0 →
        ((alookup r.test_results fp).getD {}).passed = 0 →
        1 ≤ ((alookup r.test_results fp).getD {}).skipped → st = "SKIP") ∧
      (((alookup r.test_results fp).getD {}).failed = 0 →
        ((alookup r.test_results fp).getD {}).passed = 0 →
        ((alookup r.test_results fp).getD {}).skipped = 0 → st = "UNKNOWN") := by
  simp only [sessionfinish_events, List.mem_map] at he
  obtain ⟨fp, _, rfl⟩ := he
  refine ⟨fp, _, _, _, rfl, ?_, ?_, ?_, ?_⟩ <;>
    · intros
      simp only [groupStatusOf]
      split_ifs <;> first | rfl | omega

/-- Witness for C3: with one failure and one pass recorded, the emitted group
status is FAIL. -/
theorem group_result_status_priority_witness :
    ∃ fp st dur tot,
      Event.testGroupResult "f.py" [] "FAIL" none ⟨2, 1, 1, 0, 0, 0⟩ =
        Event.testGroupResult fp [] st dur tot ∧
      (1 ≤ ((alookup witnessReporterC3.test_results fp).getD {}).failed → st = "FAIL") ∧
      (((alookup witnessReporterC3.test_results fp).getD {}).failed = 0 →
        1 ≤ ((alookup witnessReporterC3.test_results fp).getD {}).passed → st = "PASS") ∧
      (((alookup witnessReporterC3.test_results fp).getD {}).failed = 0 →
        ((alookup witnessReporterC3.test_results fp).getD {}).passed = 0 →
        1 ≤ ((alookup witnessReporterC3.test_results fp).getD {}).skipped → st = "SKIP") ∧
      (((alookup witnessReporterC3.test_results fp).getD {}).failed = 0 →
        ((alookup witnessReporterC3.test_results fp).getD {}).passed = 0 →
        ((alookup witnessReporterC3.test_results fp).getD {}).skipped = 0 →
        st = "UNKNOWN") :=
  group_result_status_priority witnessReporterC3 0 _ (by decide)

/-- **C10.** A file group whose recorded outcomes are exclusively
expected-failure ones (no passed, failed or skipped tests, but at least one
xfailed or xpassed) is reported at session end with status UNKNOWN, while its
`totals.total` equals `xfailed + xpassed` and is strictly positive. -/
theorem xfail_only_group_is_unknown (r : Reporter) (now : ℚ) (fp : String)
    (hfp : fp ∈ r.test_files)
    (hp : ((alookup r.test_results fp).getD {}).passed = 0)
    (hf : ((alookup r.test_results fp).getD {}).failed = 0)
    (hs : ((alookup r.test_results fp).getD {}).skipped = 0)
    (hx : 0 < ((alookup r.test_results fp).getD {}).xfailed +
      ((alookup r.test_results fp).getD {}).xpassed) :
    ∃ dur tot, Event.testGroupResult fp [] "UNKNOWN" dur tot ∈
        sessionfinish_events r now ∧
      tot.total = ((alookup r.test_results fp).getD {}).xfailed +
        ((alookup r.test_results fp).getD {}).xpassed ∧
      0 < tot.total := by
  have hstat : groupStatusOf ((alookup r.test_results fp).getD {}) = "UNKNOWN" := by
    simp only [groupStatusOf, hp, hf, hs]
    norm_num
  simp only [sessionfinish_events, List.mem_map]
  refine ⟨(match alookup r.file_groups fp with
      | some fg => some ((now - fg.start_time) * 1000)
      | none => none),
    ⟨((alookup r.test_results fp).getD {}).xfailed +
        ((alookup r.test_results fp).getD {}).xpassed, 0, 0, 0,
      ((alookup r.test_results fp).getD {}).xfailed,
      ((alookup r.test_results fp).getD {}).xpassed⟩,
    ⟨fp, hfp, ?_⟩, rfl, by simpa using hx⟩
  simp [hstat, hp, hf, hs]

/-! ### Group-registry bookkeeping lemmas -/

lemma disc_fold_shape (gs : List GroupInfo) :
    ∀ acc : Reporter × List Event,
      ∃ d, (gs.foldl discStep acc).1 = { acc.1 with discovered_groups := d } ∧
        acc.1.discovered_groups ⊆ d := by
  induction gs with
  | nil => exact fun acc => ⟨acc.1.discovered_groups, rfl, fun x hx => hx⟩
  | cons g gs ih =>
    intro acc
    simp only [List.foldl_cons, discStep]
    by_cases hmem : get_group_id g.hierarchy ∈ acc.1.discovered_groups
    · rw [if_pos hmem]
      exact ih acc
    · rw [if_neg hmem]
      obtain ⟨d, hd, hsub⟩ := ih
        ({ acc.1 with discovered_groups := get_group_id g.hierarchy :: acc.1.discovered_groups },
          acc.2 ++ [Event.testGroupDiscovered g.name g.parent_names])
      exact ⟨d, hd, fun x hx => hsub (List.mem_cons_of_mem _ hx)⟩

lemma mem_discStep_self (acc : Reporter × List Event) (g : GroupInfo) :
    get_group_id g.hierarchy ∈ (discStep acc g).1.discovered_groups := by
  simp only [discStep]
  by_cases hmem : get_group_id g.hierarchy ∈ acc.1.discovered_groups
  · rw [if_pos hmem]
    exact hmem
  · rw [if_neg hmem]
    exact List.mem_cons_self _ _

lemma disc_fold_post (gs : List GroupInfo) :
    ∀ acc : Reporter × List Event, ∀ g ∈ gs,
      get_group_id g.hierarchy ∈ (gs.foldl discStep acc).1.discovered_groups := by
  induction gs with
  | nil => intro _ g hg; cases hg
  | cons g0 gs ih =>
    intro acc g hg
    simp only [List.foldl_cons]
    cases List.mem_cons.mp hg with
    | inl h =>
      subst h
      obtain ⟨d, hd, hsub⟩ := disc_fold_shape gs (discStep acc g)
      rw [hd]
      exact hsub (mem_discStep_self acc g)
    | inr h => exact ih (discStep acc g0) g h

lemma disc_fold_noop (gs : List GroupInfo) :
    ∀ acc : Reporter × List Event,
      (∀ g ∈ gs, get_group_id g.hierarchy ∈ acc.1.discovered_groups) →
      gs.foldl discStep acc = acc := by
  induction gs with
  | nil => exact fun _ _ => rfl
  | cons g0 gs ih =>
    intro acc hall
    simp only [List.foldl_cons, discStep]
    rw [if_pos (hall g0 (List.mem_cons_self _ _))]
    exact ih acc (fun g hg => hall g (List.mem_cons_of_mem _ hg))

lemma disc_fold_events (gs : List GroupInfo) :
    ∀ acc : Reporter × List Event,
      ((gs.map fun g => get_group_id g.hierarchy).Nodup) →
      (∀ g ∈ gs, get_group_id g.hierarchy ∉ acc.1.discovered_groups) →
      (gs.foldl discStep acc).2 =
        acc.2 ++ gs.map (fun g => Event.testGroupDiscovered g.name g.parent_names) := by
  induction gs with
  | nil => intro acc _ _; simp
  | cons g0 gs ih =>
    intro acc hnd hfresh
    have hnd2 : (get_group_id g0.hierarchy ::
        (gs.map fun g => get_group_id g.hierarchy)).Nodup := by simpa using hnd
    obtain ⟨hhead, htail⟩ := List.nodup_cons.mp hnd2
    simp only [List.foldl_cons, discStep]
    rw [if_neg (hfresh g0 (List.mem_cons_self _ _))]
    rw [ih _ htail ?fresh]
    · simp
    case fresh =>
      intro g hg
      simp only [List.mem_cons]
      push_neg
      refine ⟨?_, hfresh g (List.mem_cons_of_mem _ hg)⟩
      intro habs
      have hmm : get_group_id g.hierarchy ∈ gs.map fun g => get_group_id g.hierarchy :=
        List.mem_map_of_mem _ hg
      rw [habs] at hmm
      exact hhead hmm

/-- `discover_groups` members, rephrased through `chainOf`. -/
lemma mem_discover_as_chain {fp : String} {sc : List String} {g : GroupInfo} :
    g ∈ discover_groups fp sc ↔
      g = ⟨chainOf fp sc 0, fp, []⟩ ∨
      ∃ i, i < sc.length ∧
        g = ⟨chainOf fp sc (i + 1), sc.getD i "", chainOf fp sc i⟩ := by
  simp only [discover_groups, List.mem_cons, List.mem_map, List.mem_range]
  constructor
  · rintro (rfl | ⟨i, hi, rfl⟩)
    · exact Or.inl rfl
    · refine Or.inr ⟨i, hi, ?_⟩
      rw [chainOf_succ fp sc i hi]
      rfl
  · rintro (rfl | ⟨i, hi, rfl⟩)
    · exact Or.inl rfl
    · refine Or.inr ⟨i, hi, ?_⟩
      rw [chainOf_succ fp sc i hi]
      rfl

lemma gid_unique_in_discover {fp : String} {sc : List String} {g1 g2 : GroupInfo}
    (h1 : g1 ∈ discover_groups fp sc) (h2 : g2 ∈ discover_groups fp sc)
    (heq : get_group_id g1.hierarchy = get_group_id g2.hierarchy) : g1 = g2 := by
  rcases mem_discover_as_chain.mp h1 with rfl | ⟨i, hi, rfl⟩ <;>
    rcases mem_discover_as_chain.mp h2 with rfl | ⟨j, hj, rfl⟩
  · rfl
  · exact absurd heq (chainOf_id_ne fp sc (by omega) (by omega) (by omega))
  · exact absurd heq (chainOf_id_ne fp sc (by omega) (by omega) (by omega))
  · by_cases hij : i = j
    · subst hij; rfl
    · exact absurd heq (chainOf_id_ne fp sc (by omega) (by omega) (by omega))

lemma chainOf_length (fp : String) (sc : List String) :
    chainOf fp sc sc.length = fp :: sc := by
  simp [chainOf]

/-- Ids of the discovery candidates are pairwise distinct. -/
lemma discover_ids_nodup (fp : String) (sc : List String) :
    ((discover_groups fp sc).map fun g => get_group_id g.hierarchy).Nodup := by
  have hmap : ((discover_groups fp sc).map fun g => get_group_id g.hierarchy) =
      (List.range (sc.length + 1)).map fun j => get_group_id (chainOf fp sc j) := by
    simp only [discover_groups, List.range_succ_eq_map, List.map_cons, List.map_map]
    refine congrArg₂ _ rfl ?_
    refine List.map_congr_left ?_
    intro i hi
    have hilt : i < sc.length := List.mem_range.mp hi
    simp only [Function.comp]
    rw [chainOf_succ fp sc i hilt]
    simp [chainOf]
  rw [hmap]
  refine List.Nodup.map_on ?_ (List.nodup_range _)
  intro j hj k hk hjk
  by_contra hne
  exact absurd hjk (chainOf_id_ne fp sc hne
    (Nat.lt_succ_iff.mp (List.mem_range.mp hj))
    (Nat.lt_succ_iff.mp (List.mem_range.mp hk)))

lemma ensure_started_already (r : Reporter) (h : List String)
    (hmem : get_group_id h ∈ r.group_starts) :
    ensure_group_started r h = (r, []) := by
  simp only [ensure_group_started]
  rw [if_pos hmem]

lemma mem_starts_after_ensure (r : Reporter) (h : List String) :
    get_group_id h ∈ (ensure_group_started r h).1.group_starts := by
  simp only [ensure_group_started]
  by_cases hmem : get_group_id h ∈ r.group_starts
  · rw [if_pos hmem]
    exact hmem
  · rw [if_neg hmem]
    cases hfind : (discover_groups (h.headD "") (h.drop 1)).find?
        (fun g => get_group_id g.hierarchy == get_group_id h) with
    | none => exact List.mem_cons_self _ _
    | some g => exact List.mem_cons_self _ _

lemma ensure_started_shape (r : Reporter) (h : List String) :
    ∃ st, (ensure_group_started r h).1 = { r with group_starts := st } ∧
      r.group_starts ⊆ st := by
  simp only [ensure_group_started]
  by_cases hmem : get_group_id h ∈ r.group_starts
  · rw [if_pos hmem]
    exact ⟨r.group_starts, rfl, fun x hx => hx⟩
  · rw [if_neg hmem]
    cases hfind : (discover_groups (h.headD "") (h.drop 1)).find?
        (fun g => get_group_id g.hierarchy == get_group_id h) with
    | none => exact ⟨_, rfl, fun x hx => List.mem_cons_of_mem _ hx⟩
    | some g => exact ⟨_, rfl, fun x hx => List.mem_cons_of_mem _ hx⟩

/-- On a fresh identity, `ensure_group_started` records it and emits one
`testGroupStart` whose payload is the last chain element plus its ancestor
names: the discovery record found by the scan is exactly the full chain,
because every shorter prefix has a strictly shorter joined id. -/
lemma ensure_started_fresh (r : Reporter) (f : String) (t : List String)
    (hfresh : get_group_id (f :: t) ∉ r.group_starts) :
    ensure_group_started r (f :: t) =
      ({ r with group_starts := get_group_id (f :: t) :: r.group_starts },
        [Event.testGroupStart ((f :: t).getLastD "") (f :: t).dropLast]) := by
  cases t with
  | nil =>
    simp only [ensure_group_started]
    rw [if_neg hfresh]
    simp [discover_groups, List.find?]
  | cons s t2 =>
    simp only [ensure_group_started]
    rw [if_neg hfresh]
    have hne : (f :: s :: t2 : List String) ≠ [] := by simp
    have hchain : chainOf f (s :: t2) (t2.length + 1) = f :: s :: t2 := by
      have := chainOf_length f (s :: t2)
      simpa using this
    have hlastmem : (⟨f :: s :: t2, (s :: t2).getD t2.length "",
        chainOf f (s :: t2) t2.length⟩ : GroupInfo) ∈ discover_groups f (s :: t2) := by
      refine mem_discover_as_chain.mpr (Or.inr ⟨t2.length, by simp, ?_⟩)
      rw [hchain]
    have hdecomp : chainOf f (s :: t2) t2.length ++ [(s :: t2).getD t2.length ""] =
        f :: s :: t2 := by
      rw [← chainOf_succ f (s :: t2) t2.length (by simp), hchain]
    have hdecomp2 : (f :: s :: t2).dropLast ++ [(f :: s :: t2).getLast hne] =
        f :: s :: t2 := List.dropLast_append_getLast hne
    obtain ⟨hpn, hnm⟩ := List.append_inj' (hdecomp.trans hdecomp2.symm) rfl
    have hgl2 : (f :: s :: t2).getLastD "" = (f :: s :: t2).getLast hne := by
      conv_lhs => rw [← hdecomp2]
      rw [List.getLastD_concat]
    have hx : (s :: t2).getD t2.length "" = (f :: s :: t2).getLast hne := by
      simpa using hnm
    have hnm2 : (s :: t2).getD t2.length "" = (f :: s :: t2).getLastD "" := by
      rw [hx, hgl2]
    cases hfind : (discover_groups ((f :: s :: t2 : List String).headD "")
        ((f :: s :: t2 : List String).drop 1)).find?
        (fun g => get_group_id g.hierarchy == get_group_id (f :: s :: t2)) with
    | none =>
      exfalso
      have := List.find?_eq_none.mp hfind _ hlastmem
      simp at this
    | some g =>
      have hp := List.find?_some hfind
      have hgmem := List.mem_of_find?_eq_some hfind
      have hgeq : get_group_id g.hierarchy = get_group_id (f :: s :: t2) :=
        eq_of_beq hp
      have hgl : g = ⟨f :: s :: t2, (s :: t2).getD t2.length "",
          chainOf f (s :: t2) t2.length⟩ :=
        gid_unique_in_discover hgmem hlastmem (by rw [hgeq])
      rw [hgl]
      dsimp only
      rw [hnm2, hpn]

lemma ensure_groups_discovered_idem (r : Reporter) (fp : String)
    (sc : List String) :
    ensure_groups_discovered (ensure_groups_discovered r fp sc).1 fp sc =
      ((ensure_groups_discovered r fp sc).1, []) := by
  apply disc_fold_noop
  intro g hg
  exact disc_fold_post (discover_groups fp sc) (r, []) g hg

/-! ### C1: idempotent discovery and start bookkeeping -/

/-- **C1.** Discovery and start bookkeeping are idempotent: a second call of
`ensure_groups_discovered` with identical arguments emits nothing and leaves
the reporter (both identity sets included) unchanged, and likewise for
`ensure_group_started`; a first call on untouched identities emits exactly
one `testGroupDiscovered` per group of the chain (outermost first) and
exactly one `testGroupStart` for the hierarchy. -/
theorem discovery_and_start_idempotent (r : Reporter) (fp : String)
    (sc : List String) (h : List String) (hne : h ≠ []) :
    (ensure_groups_discovered (ensure_groups_discovered r fp sc).1 fp sc =
      ((ensure_groups_discovered r fp sc).1, [])) ∧
    (ensure_group_started (ensure_group_started r h).1 h =
      ((ensure_group_started r h).1, [])) ∧
    ((∀ g ∈ discover_groups fp sc,
        get_group_id g.hierarchy ∉ r.discovered_groups) →
      (ensure_groups_discovered r fp sc).2 =
        (discover_groups fp sc).map
          (fun g => Event.testGroupDiscovered g.name g.parent_names)) ∧
    (get_group_id h ∉ r.group_starts →
      (ensure_group_started r h).2 =
        [Event.testGroupStart (h.getLastD "") h.dropLast]) := by
  refine ⟨ensure_groups_discovered_idem r fp sc,
    ensure_started_already _ h (mem_starts_after_ensure r h), ?_, ?_⟩
  · intro hfresh
    have := disc_fold_events (discover_groups fp sc) (r, [])
      (discover_ids_nodup fp sc) hfresh
    simpa [ensure_groups_discovered] using this
  · intro hfresh
    obtain ⟨f, t, rfl⟩ := List.exists_cons_of_ne_nil hne
    rw [ensure_started_fresh r f t hfresh]

/-- Witness for C1: a fresh two-level chain emits one discovery per group
and one start for the hierarchy; the immediate repeat emits nothing. -/
theorem discovery_and_start_idempotent_witness :
    (ensure_groups_discovered
        (ensure_groups_discovered initReporter "f.py" ["A"]).1 "f.py" ["A"] =
      ((ensure_groups_discovered initReporter "f.py" ["A"]).1, [])) ∧
    (ensure_groups_discovered initReporter "f.py" ["A"]).2 =
      (discover_groups "f.py" ["A"]).map
        (fun g => Event.testGroupDiscovered g.name g.parent_names) ∧
    (ensure_group_started initReporter ["f.py", "A"]).2 =
      [Event.testGroupStart ((["f.py", "A"] : List String).getLastD "")
        (["f.py", "A"] : List String).dropLast] :=
  ⟨(discovery_and_start_idempotent initReporter "f.py" ["A"] ["f.py", "A"]
      (by decide)).1,
   (discovery_and_start_idempotent initReporter "f.py" ["A"] ["f.py", "A"]
      (by decide)).2.2.1 (by decide),
   (discovery_and_start_idempotent initReporter "f.py" ["A"] ["f.py", "A"]
      (by decide)).2.2.2 (by decide)⟩

/-! ### Shape of the events emitted by the registry helpers -/

lemma disc_fold_events_types (gs : List GroupInfo) :
    ∀ acc : Reporter × List Event, ∀ e ∈ (gs.foldl discStep acc).2,
      e ∈ acc.2 ∨ ∃ gn pn, e = Event.testGroupDiscovered gn pn := by
  induction gs with
  | nil => exact fun acc e he => Or.inl he
  | cons g gs ih =>
    intro acc e he
    rcases ih (discStep acc g) e he with hin | hdisc
    · simp only [discStep] at hin
      by_cases hmem : get_group_id g.hierarchy ∈ acc.1.discovered_groups
      · rw [if_pos hmem] at hin
        exact Or.inl hin
      · rw [if_neg hmem] at hin
        rcases List.mem_append.mp hin with h1 | h2
        · exact Or.inl h1
        · exact Or.inr ⟨g.name, g.parent_names, by simpa using h2⟩
    · exact Or.inr hdisc

lemma ensure_disc_events_types (r : Reporter) (fp : String) (sc : List String) :
    ∀ e ∈ (ensure_groups_discovered r fp sc).2,
      ∃ gn pn, e = Event.testGroupDiscovered gn pn := by
  intro e he
  rcases disc_fold_events_types (discover_groups fp sc) (r, []) e he with hin | h
  · cases hin
  · exact h

lemma ensure_started_events_types (r : Reporter) (h : List String) :
    ∀ e ∈ (ensure_group_started r h).2, ∃ gn pn, e = Event.testGroupStart gn pn := by
  intro e he
  simp only [ensure_group_started] at he
  by_cases hmem : get_group_id h ∈ r.group_starts
  · rw [if_pos hmem] at he
    cases he
  · rw [if_neg hmem] at he
    cases hfind : (discover_groups (h.headD "") (h.drop 1)).find?
        (fun g => get_group_id g.hierarchy == get_group_id h) with
    | none =>
      rw [hfind] at he
      cases he
    | some g =>
      rw [hfind] at he
      exact ⟨g.name, g.parent_names, by simpa using he⟩

lemma start_fold_events_types (idx : List Nat) (fp : String) (sc : List String) :
    ∀ acc : Reporter × List Event,
      ∀ e ∈ (idx.foldl (startStep fp sc) acc).2,
        e ∈ acc.2 ∨ ∃ gn pn, e = Event.testGroupStart gn pn := by
  induction idx with
  | nil => exact fun acc e he => Or.inl he
  | cons i idx ih =>
    intro acc e he
    rcases ih (startStep fp sc acc i) e he with hin | hst
    · simp only [startStep] at hin
      rcases List.mem_append.mp hin with h1 | h2
      · exact Or.inl h1
      · exact Or.inr (ensure_started_events_types _ _ e h2)
    · exact Or.inr hst

lemma start_all_events_types (r : Reporter) (fp : String) (sc : List String) :
    ∀ e ∈ (start_all_ancestors r fp sc).2,
      ∃ gn pn, e = Event.testGroupStart gn pn := by
  intro e he
  rcases start_fold_events_types (List.range (sc.length + 1)) fp sc (r, []) e he with
    hin | h
  · cases hin
  · exact h

/-! ### The test-case payloads emitted by the log-report handler -/

lemma not_isSome_none {α : Type} : ∀ {o : Option α}, ¬o.isSome → o = none
  | none, _ => rfl
  | some _, h => absurd rfl h

lemma classify_call_eq_skip {r : Reporter} {rep : TestReport} {fp : String}
    (h : (classify_call r rep fp).1 = "SKIP") :
    rep.outcome = Outcome.skipped ∧ rep.wasxfail = none := by
  cases ho : rep.outcome <;> cases hw : rep.wasxfail <;>
    simp_all [classify_call]

/-- The only `testCase` event emitted by the skip branch is the SKIP payload
for the parsed test. -/
lemma skip_branch_testCase {r : Reporter} {rep : TestReport} {p : TCPayload}
    (hmem : Event.testCase p ∈ (skip_branch r rep).2) :
    p = ⟨(parse_test_hierarchy rep.nodeid).2.2,
      build_hierarchy_from_file (parse_test_hierarchy rep.nodeid).1
        (parse_test_hierarchy rep.nodeid).2.1,
      "SKIP", none, none, some (extract_skip_reason rep), some rep.phase,
      none⟩ := by
  simp only [skip_branch] at hmem
  rcases List.mem_append.mp hmem with hm | hm
  · rcases List.mem_append.mp hm with hm2 | hm2
    · obtain ⟨gn, pn, heq⟩ := ensure_disc_events_types _ _ _ _ hm2
      cases heq
    · obtain ⟨gn, pn, heq⟩ := start_all_events_types _ _ _ _ hm2
      cases heq
  · have heq := List.mem_singleton.mp hm
    injection heq

/-- The only `testCase` event emitted by the call branch is the classified
payload for the parsed test. -/
lemma call_branch_testCase {r : Reporter} {rep : TestReport} {p : TCPayload}
    (hmem : Event.testCase p ∈ (call_branch r rep).2) :
    p = ⟨(parse_test_hierarchy rep.nodeid).2.2,
      build_hierarchy_from_file (parse_test_hierarchy rep.nodeid).1
        (parse_test_hierarchy rep.nodeid).2.1,
      (classify_call r rep (parse_test_hierarchy rep.nodeid).1).1,
      some (durationMillis rep),
      (if rep.outcome = Outcome.failed ∧ truthyLongRepr rep.longrepr then
        some (pyStrLongRepr rep.longrepr) else none), none, none,
      (if rep.wasxfail.isSome then some (rep.wasxfail.getD "") else none)⟩ := by
  simp only [call_branch] at hmem
  rcases List.mem_append.mp hmem with hm | hm
  · rcases List.mem_append.mp hm with hm2 | hm2
    · obtain ⟨gn, pn, heq⟩ := ensure_disc_events_types _ _ _ _ hm2
      cases heq
    · obtain ⟨gn, pn, heq⟩ := start_all_events_types _ _ _ _ hm2
      cases heq
  · have heq := List.mem_singleton.mp hm
    injection heq

/-- Every `testCase` payload emitted by `logreport_core` comes either from the
skip-deduplication branch (status SKIP, no duration, no error, a skip phase)
or from the call-phase branch (duration present, no skip fields, error
present exactly for a failed report with a truthy longrepr, status never
SKIP). -/
lemma logreport_core_testCase_fields {r : Reporter} {rep : TestReport}
    {p : TCPayload} (hmem : Event.testCase p ∈ (logreport_core r rep).2) :
    (rep.outcome = Outcome.skipped ∧ (rep.phase = "setup" ∨ rep.phase = "call") ∧
      rep.wasxfail = none ∧ p.status = "SKIP" ∧ p.duration = none ∧
      p.error = none ∧ p.skipPhase = some rep.phase ∧
      p.skipReason = some (extract_skip_reason rep)) ∨
    (rep.phase = "call" ∧ p.duration = some (durationMillis rep) ∧
      p.skipPhase = none ∧ p.skipReason = none ∧
      p.error = (if rep.outcome = Outcome.failed ∧ truthyLongRepr rep.longrepr
        then some (pyStrLongRepr rep.longrepr) else none) ∧
      ¬p.status = "SKIP") := by
  simp only [logreport_core] at hmem
  split_ifs at hmem with h1 h2 h3
  · cases hmem
  · have hp := skip_branch_testCase hmem
    subst hp
    exact Or.inl ⟨h1.1, h1.2.1, not_isSome_none h1.2.2, rfl, rfl, rfl, rfl, rfl⟩
  · have hp := call_branch_testCase hmem
    subst hp
    have hcall : rep.phase = "call" := h3
    refine Or.inr ⟨hcall, rfl, rfl, rfl, rfl, ?_⟩
    intro hs
    obtain ⟨ho, hw⟩ := classify_call_eq_skip hs
    exact h1 ⟨ho, Or.inr hcall, by simp [hw]⟩
  · cases hmem

/-! ### C7: the error field -/

/-- **C7 counterexample.** The handler emits a `testCase` with status FAIL
and no `error` field when the failed report carries no truthy failure
representation, so "error present iff status FAIL" is false. -/
theorem error_iff_fail_counterexample :
    Event.testCase ⟨"t", ["f.py"], "FAIL", some 0, none, none, none, none⟩ ∈
      (logreport_core initReporter cxReportFail).2 ∧
    (TCPayload.mk "t" ["f.py"] "FAIL" (some 0) none none none none).status =
      "FAIL" ∧
    (TCPayload.mk "t" ["f.py"] "FAIL" (some 0) none none none none).error =
      none := by
  decide

/-- **C7 (amended).** In every `testCase` event emitted by the log-report
handler, the `error` field is present iff the raw report failed and carries a
truthy failure representation, and in that case it is exactly the string form
of that representation.  (For a FAIL-status event with a truthy longrepr this
gives the original claim; an XFAIL event from a failed xfail-marked report
also carries the field, and a FAIL event with an empty longrepr does not.) -/
theorem error_present_iff_failed_truthy_longrepr (r : Reporter)
    (rep : TestReport) (p : TCPayload)
    (hmem : Event.testCase p ∈ (logreport_core r rep).2) :
    (p.error.isSome ↔
      (rep.outcome = Outcome.failed ∧ truthyLongRepr rep.longrepr)) ∧
    p.error = (if rep.outcome = Outcome.failed ∧ truthyLongRepr rep.longrepr
      then some (pyStrLongRepr rep.longrepr) else none) := by
  rcases logreport_core_testCase_fields hmem with hskip | hcall
  · obtain ⟨ho, -, -, -, -, herr, -, -⟩ := hskip
    constructor
    · simp [herr, ho]
    · simp [herr, ho]
  · obtain ⟨-, -, -, -, herr, -⟩ := hcall
    rw [herr]
    by_cases hc : rep.outcome = Outcome.failed ∧ truthyLongRepr rep.longrepr
    · simp [hc]
    · simp [hc]

/-- Witness for the amended C7. -/
theorem error_present_iff_failed_truthy_longrepr_witness :
    ((TCPayload.mk "t" ["f.py"] "FAIL" (some 0) (some "assert 1 == 2")
        none none none).error.isSome ↔
      (wReportFailRepr.outcome = Outcome.failed ∧
        truthyLongRepr wReportFailRepr.longrepr)) ∧
    (TCPayload.mk "t" ["f.py"] "FAIL" (some 0) (some "assert 1 == 2")
        none none none).error =
      (if wReportFailRepr.outcome = Outcome.failed ∧
          truthyLongRepr wReportFailRepr.longrepr
        then some (pyStrLongRepr wReportFailRepr.longrepr) else none) :=
  error_present_iff_failed_truthy_longrepr initReporter wReportFailRepr _
    (by decide)

/-! ### C8: the duration field -/

/-- **C8 counterexample.** The SKIP `testCase` emitted by the skip branch
carries no `duration` field at all, so "every testCase event, including SKIP
events, carries a duration field" is false. -/
theorem duration_missing_on_skip_counterexample :
    Event.testCase ⟨"t", ["f.py"], "SKIP", none, none, some "Test skipped",
        some "setup", none⟩ ∈
      (logreport_core initReporter cxReportSkip).2 ∧
    (TCPayload.mk "t" ["f.py"] "SKIP" none none (some "Test skipped")
        (some "setup") none).duration = none := by
  decide

lemma durationMillis_nonneg (rep : TestReport) (h : 0 ≤ rep.duration.getD 0) :
    0 ≤ durationMillis rep := by
  cases hd : rep.duration with
  | none => simp [durationMillis, hd]
  | some d =>
    have hdn : (0 : ℚ) ≤ d := by simpa [hd] using h
    simpa [durationMillis, hd] using mul_nonneg hdn (by norm_num : (0:ℚ) ≤ 1000)

/-- **C8 (amended).** A `testCase` event emitted by the log-report handler
carries a `duration` field iff it comes from the call-phase path
(equivalently, iff it carries no `skipPhase`); when present it equals the raw
report's duration converted to milliseconds and is non-negative whenever the
raw duration is.  SKIP events emitted by the skip branch carry no duration
field. -/
theorem duration_present_iff_call_emission (r : Reporter) (rep : TestReport)
    (p : TCPayload) (hmem : Event.testCase p ∈ (logreport_core r rep).2) :
    (p.duration.isSome ↔ p.skipPhase = none) ∧
    (p.skipPhase = none → p.duration = some (durationMillis rep)) ∧
    (0 ≤ rep.duration.getD 0 → 0 ≤ durationMillis rep) := by
  rcases logreport_core_testCase_fields hmem with hskip | hcall
  · obtain ⟨-, -, -, -, hdur, -, hph, -⟩ := hskip
    refine ⟨?_, ?_, durationMillis_nonneg rep⟩
    · simp [hdur, hph]
    · rw [hph]
      intro habs
      cases habs
  · obtain ⟨-, hdur, hph, -, -, -⟩ := hcall
    refine ⟨?_, fun _ => hdur, durationMillis_nonneg rep⟩
    simp [hdur, hph]

/-- Witness for the amended C8. -/
theorem duration_present_iff_call_emission_witness :
    ((TCPayload.mk "t" ["f.py"] "PASS" (some 0) none none none
        none).duration.isSome ↔
      (TCPayload.mk "t" ["f.py"] "PASS" (some 0) none none none
        none).skipPhase = none) ∧
    ((TCPayload.mk "t" ["f.py"] "PASS" (some 0) none none none
        none).skipPhase = none →
      (TCPayload.mk "t" ["f.py"] "PASS" (some 0) none none none
        none).duration = some (durationMillis wReportPass)) ∧
    (0 ≤ wReportPass.duration.getD 0 → 0 ≤ durationMillis wReportPass) :=
  duration_present_iff_call_emission initReporter wReportPass _ (by decide)

/-! ### C6: worker silencing -/

/-- Once the cached worker flag is set (and as long as every later configure
call still sees the worker marker, as a process-wide environment variable
guarantees), every callback leaves the module state untouched. -/
lemma worker_runFrom_fixed (tr : List Callback) :
    ∀ a : Adapter, a.is_worker = true →
      (∀ env, Callback.configure env ∈ tr → env.isSome) →
      runFrom a tr = a := by
  induction tr with
  | nil => intro a _ _; rfl
  | cons c cs ih =>
    intro a hw hcfg
    have hstep : step a c = a := by
      cases c with
      | configure env =>
        have henv : env.isSome := hcfg env (List.mem_cons_self _ _)
        simp only [step, pytest_configure, is_xdist_worker]
        rw [if_pos henv]
        cases a
        simp_all
      | collectreport rep => simp [step, pytest_collectreport, hw]
      | collection_finish n => simp [step, pytest_collection_finish, hw]
      | runtest_protocol fp now => simp [step, pytest_runtest_protocol, hw]
      | runtest_logreport rep => simp [step, pytest_runtest_logreport, hw]
      | sessionfinish now => simp [step, pytest_sessionfinish, hw]
      | unconfigure => simp [step, pytest_unconfigure, hw]
    rw [runFrom, hstep]
    exact ih a hw (fun env he => hcfg env (List.mem_cons_of_mem _ he))

/-- **C6.** When the worker environment marker is present at configuration
time (and, the marker being process-wide, at any repeated configuration),
zero events are ever written to the IPC sink for the entire process lifetime
and no reporter is ever created, whatever sequence of framework callbacks
follows. -/
theorem worker_marker_silences_bridge (w : String) (rest : List Callback)
    (hcfg : ∀ env, Callback.configure env ∈ rest → env.isSome) :
    (run (Callback.configure (some w) :: rest)).sink = [] ∧
    (run (Callback.configure (some w) :: rest)).reporter = none := by
  have h1 : step initAdapter (Callback.configure (some w)) =
      (⟨true, none, []⟩ : Adapter) := by
    simp [step, pytest_configure, is_xdist_worker, initAdapter]
  have h2 : run (Callback.configure (some w) :: rest) =
      (⟨true, none, []⟩ : Adapter) := by
    rw [run, runFrom, h1]
    exact worker_runFrom_fixed rest ⟨true, none, []⟩ rfl hcfg
  rw [h2]
  exact ⟨rfl, rfl⟩

/-- Witness for C6: a worker process stays silent through a collect report, a
test protocol, a log report and session finish. -/
theorem worker_marker_silences_bridge_witness :
    (run (Callback.configure (some "gw0") ::
        [Callback.collectreport ⟨true, "f.py", LongRepr.strRepr "boom"⟩,
         Callback.runtest_protocol "f.py" 0,
         Callback.runtest_logreport wReportPass,
         Callback.sessionfinish 0])).sink = [] ∧
    (run (Callback.configure (some "gw0") ::
        [Callback.collectreport ⟨true, "f.py", LongRepr.strRepr "boom"⟩,
         Callback.runtest_protocol "f.py" 0,
         Callback.runtest_logreport wReportPass,
         Callback.sessionfinish 0])).reporter = none :=
  worker_marker_silences_bridge "gw0" _ (by intro env he; simp at he)

/-- Witness for C10. -/
theorem xfail_only_group_is_unknown_witness :
    ∃ dur tot, Event.testGroupResult "f.py" [] "UNKNOWN" dur tot ∈
        sessionfinish_events witnessReporterC10 0 ∧
      tot.total =
        ((alookup witnessReporterC10.test_results "f.py").getD {}).xfailed +
        ((alookup witnessReporterC10.test_results "f.py").getD {}).xpassed ∧
      0 < tot.total :=
  xfail_only_group_is_unknown witnessReporterC10 0 "f.py" (by decide) (by decide)
    (by decide) (by decide) (by decide)

/-! ### C5: single SKIP emission per (file, test) pair -/

lemma countSkip_append (fp tn : String) (s t : List Event) :
    countSkip fp tn (s ++ t) = countSkip fp tn s + countSkip fp tn t := by
  simp [countSkip, List.filter_append]

lemma countSkip_eq_zero (fp tn : String) (evs : List Event)
    (h : ∀ e ∈ evs, isSkipCaseFor fp tn e = false) : countSkip fp tn evs = 0 := by
  simp only [countSkip, List.length_eq_zero]
  refine List.filter_eq_nil_iff.mpr ?_
  intro e he
  simp [h e he]

lemma init_results_processed (r0 : Reporter) (fp : String) :
    (init_results r0 fp).processed_skips = r0.processed_skips := by
  simp only [init_results]
  split_ifs <;> rfl

lemma bumpResults_processed (r : Reporter) (fp : String) (f : Results → Results) :
    (bumpResults r fp f).processed_skips = r.processed_skips := rfl

lemma trackTest_processed (r : Reporter) (fp : String) (t : TestEntry) :
    (trackTest r fp t).processed_skips = r.processed_skips := by
  simp only [trackTest]
  split <;> rfl

lemma start_fold_shape (idx : List Nat) (fp : String) (sc : List String) :
    ∀ acc : Reporter × List Event,
      ∃ st, (idx.foldl (startStep fp sc) acc).1 =
          { acc.1 with group_starts := st } ∧
        acc.1.group_starts ⊆ st := by
  induction idx with
  | nil => exact fun acc => ⟨acc.1.group_starts, rfl, fun x hx => hx⟩
  | cons i idx ih =>
    intro acc
    obtain ⟨st1, heq1, hsub1⟩ := ensure_started_shape acc.1 (fp :: sc.take i)
    obtain ⟨st, heq, hsub⟩ := ih (startStep fp sc acc i)
    refine ⟨st, ?_, ?_⟩
    · rw [List.foldl_cons, heq]
      simp only [startStep]
      rw [heq1]
    · intro x hx
      apply hsub
      simp only [startStep]
      rw [heq1]
      exact hsub1 hx

lemma disc_fold_processed (gs : List GroupInfo) (acc : Reporter × List Event) :
    (gs.foldl discStep acc).1.processed_skips = acc.1.processed_skips := by
  obtain ⟨d, hd, -⟩ := disc_fold_shape gs acc
  rw [hd]

lemma start_fold_processed (idx : List Nat) (fp : String) (sc : List String)
    (acc : Reporter × List Event) :
    (idx.foldl (startStep fp sc) acc).1.processed_skips =
      acc.1.processed_skips := by
  obtain ⟨st, hst, -⟩ := start_fold_shape idx fp sc acc
  rw [hst]

lemma ensure_disc_processed (r : Reporter) (fp : String) (sc : List String) :
    (ensure_groups_discovered r fp sc).1.processed_skips = r.processed_skips := by
  simp only [ensure_groups_discovered]
  rw [disc_fold_processed]

lemma ensure_started_processed (r : Reporter) (h : List String) :
    (ensure_group_started r h).1.processed_skips = r.processed_skips := by
  obtain ⟨st, heq, -⟩ := ensure_started_shape r h
  rw [heq]

lemma start_all_processed (r : Reporter) (fp : String) (sc : List String) :
    (start_all_ancestors r fp sc).1.processed_skips = r.processed_skips := by
  simp only [start_all_ancestors]
  rw [start_fold_processed]

lemma classify_call_processed (r : Reporter) (rep : TestReport) (fp : String) :
    (classify_call r rep fp).2.processed_skips = r.processed_skips := by
  simp only [classify_call]
  split_ifs <;> rfl

lemma skip_branch_processed (r : Reporter) (rep : TestReport) :
    (skip_branch r rep).1.processed_skips =
      ((parse_test_hierarchy rep.nodeid).1,
        (parse_test_hierarchy rep.nodeid).2.2) :: r.processed_skips := by
  simp only [skip_branch, start_all_ancestors, ensure_groups_discovered]
  rw [trackTest_processed, start_fold_processed, disc_fold_processed,
    bumpResults_processed]

lemma call_branch_processed (r : Reporter) (rep : TestReport) :
    (call_branch r rep).1.processed_skips = r.processed_skips := by
  simp only [call_branch, start_all_ancestors, ensure_groups_discovered]
  rw [trackTest_processed]
  split_ifs with hf
  · rw [bumpResults_processed, start_fold_processed, disc_fold_processed,
      classify_call_processed]
  · rw [start_fold_processed, disc_fold_processed, classify_call_processed]

lemma logreport_core_processed (fp tn : String) (r : Reporter)
    (rep : TestReport) :
    (fp, tn) ∈ (logreport_core r rep).1.processed_skips ↔
      (fp, tn) ∈ r.processed_skips ∨
        qualifyingSkipP fp tn (Callback.runtest_logreport rep) := by
  simp only [logreport_core]
  split_ifs with h1 h2 h3
  · rw [init_results_processed]
    constructor
    · exact Or.inl
    · rintro (h | hq)
      · exact h
      · simp only [qualifyingSkipP] at hq
        obtain ⟨-, -, -, hfp, htn⟩ := hq
        rw [init_results_processed] at h2
        rw [← hfp, ← htn]
        exact h2
  · rw [skip_branch_processed, init_results_processed]
    simp only [List.mem_cons]
    constructor
    · rintro (heq | h)
      · right
        simp only [qualifyingSkipP]
        injection heq with hfp htn
        exact ⟨h1.1, h1.2.1, not_isSome_none h1.2.2, hfp.symm, htn.symm⟩
      · exact Or.inl h
    · rintro (h | hq)
      · exact Or.inr h
      · left
        simp only [qualifyingSkipP] at hq
        obtain ⟨-, -, -, hfp, htn⟩ := hq
        rw [hfp, htn]
  · rw [call_branch_processed, init_results_processed]
    constructor
    · exact Or.inl
    · rintro (h | hq)
      · exact h
      · exfalso
        simp only [qualifyingSkipP] at hq
        obtain ⟨ho, hph, hwx, -, -⟩ := hq
        exact h1 ⟨ho, hph, by simp [hwx]⟩
  · rw [init_results_processed]
    constructor
    · exact Or.inl
    · rintro (h | hq)
      · exact h
      · exfalso
        simp only [qualifyingSkipP] at hq
        obtain ⟨ho, hph, hwx, -, -⟩ := hq
        exact h1 ⟨ho, hph, by simp [hwx]⟩

lemma countSkip_skip_branch (fp tn : String) (r : Reporter) (rep : TestReport) :
    countSkip fp tn (skip_branch r rep).2 =
      if (parse_test_hierarchy rep.nodeid).1 = fp ∧
          (parse_test_hierarchy rep.nodeid).2.2 = tn then 1 else 0 := by
  simp only [skip_branch]
  rw [countSkip_append, countSkip_append]
  rw [countSkip_eq_zero fp tn _ (fun e he => by
    obtain ⟨gn, pn, rfl⟩ := ensure_disc_events_types _ _ _ _ he
    rfl)]
  rw [countSkip_eq_zero fp tn _ (fun e he => by
    obtain ⟨gn, pn, rfl⟩ := start_all_events_types _ _ _ _ he
    rfl)]
  simp only [Nat.zero_add]
  by_cases hpair : (parse_test_hierarchy rep.nodeid).1 = fp ∧
      (parse_test_hierarchy rep.nodeid).2.2 = tn
  · rw [if_pos hpair]
    simp [countSkip, List.filter, isSkipCaseFor, build_hierarchy_from_file,
      hpair.1, hpair.2]
  · rw [if_neg hpair]
    apply countSkip_eq_zero
    intro e he
    rw [List.mem_singleton.mp he]
    rw [Bool.eq_false_iff]
    intro habs
    simp only [isSkipCaseFor, build_hierarchy_from_file, Bool.and_eq_true,
      beq_iff_eq] at habs
    exact hpair ⟨by simpa using habs.2, habs.1.2⟩

lemma countSkip_call_branch (fp tn : String) (r : Reporter) (rep : TestReport)
    (h1 : ¬(rep.outcome = Outcome.skipped ∧
      (rep.phase = "setup" ∨ rep.phase = "call") ∧ ¬rep.wasxfail.isSome))
    (hc : rep.phase = "call") :
    countSkip fp tn (call_branch r rep).2 = 0 := by
  apply countSkip_eq_zero
  intro e he
  simp only [call_branch] at he
  rcases List.mem_append.mp he with hm | hm
  · rcases List.mem_append.mp hm with h2 | h2
    · obtain ⟨gn, pn, rfl⟩ := ensure_disc_events_types _ _ _ _ h2
      rfl
    · obtain ⟨gn, pn, rfl⟩ := start_all_events_types _ _ _ _ h2
      rfl
  · rw [List.mem_singleton.mp hm]
    rw [Bool.eq_false_iff]
    intro habs
    simp only [isSkipCaseFor, Bool.and_eq_true, beq_iff_eq] at habs
    obtain ⟨⟨hs, -⟩, -⟩ := habs
    obtain ⟨ho, hwx⟩ := classify_call_eq_skip hs
    exact h1 ⟨ho, Or.inr hc, by simp [hwx]⟩

lemma countSkip_logreport (fp tn : String) (r : Reporter) (rep : TestReport) :
    countSkip fp tn (logreport_core r rep).2 =
      if (fp, tn) ∉ r.processed_skips ∧
          qualifyingSkipP fp tn (Callback.runtest_logreport rep) then 1
      else 0 := by
  simp only [logreport_core]
  by_cases h1 : rep.outcome = Outcome.skipped ∧
      (rep.phase = "setup" ∨ rep.phase = "call") ∧ ¬rep.wasxfail.isSome
  · rw [if_pos h1]
    by_cases h2 : ((parse_test_hierarchy rep.nodeid).1,
        (parse_test_hierarchy rep.nodeid).2.2) ∈
        (init_results r (parse_test_hierarchy rep.nodeid).1).processed_skips
    · rw [if_pos h2]
      symm
      rw [if_neg]
      · rfl
      rintro ⟨hnot, hq⟩
      simp only [qualifyingSkipP] at hq
      obtain ⟨-, -, -, hfp, htn⟩ := hq
      rw [init_results_processed] at h2
      exact hnot (by rw [← hfp, ← htn]; exact h2)
    · rw [if_neg h2]
      rw [countSkip_skip_branch]
      by_cases hpair : (parse_test_hierarchy rep.nodeid).1 = fp ∧
          (parse_test_hierarchy rep.nodeid).2.2 = tn
      · rw [if_pos hpair, if_pos]
        refine ⟨?_, ?_⟩
        · rw [init_results_processed] at h2
          rw [← hpair.1, ← hpair.2]
          exact h2
        · simp only [qualifyingSkipP]
          exact ⟨h1.1, h1.2.1, not_isSome_none h1.2.2, hpair.1, hpair.2⟩
      · rw [if_neg hpair, if_neg]
        rintro ⟨-, hq⟩
        simp only [qualifyingSkipP] at hq
        exact hpair ⟨hq.2.2.2.1, hq.2.2.2.2⟩
  · rw [if_neg h1]
    by_cases h3 : ¬rep.phase = "call"
    · rw [if_pos h3]
      symm
      rw [if_neg]
      · rfl
      rintro ⟨-, hq⟩
      simp only [qualifyingSkipP] at hq
      exact h1 ⟨hq.1, hq.2.1, by simp [hq.2.2.1]⟩
    · rw [if_neg h3]
      rw [countSkip_call_branch fp tn _ rep h1 (not_not.mp h3)]
      symm
      rw [if_neg]
      rintro ⟨-, hq⟩
      simp only [qualifyingSkipP] at hq
      exact h1 ⟨hq.1, hq.2.1, by simp [hq.2.2.1]⟩

lemma sessionfinish_events_skipfree (fp tn : String) (r : Reporter) (now : ℚ) :
    countSkip fp tn (sessionfinish_events r now) = 0 := by
  apply countSkip_eq_zero
  intro e he
  simp only [sessionfinish_events, List.mem_map] at he
  obtain ⟨x, -, rfl⟩ := he
  rfl

lemma countSkip_single_nonskip (fp tn : String) (e : Event)
    (h : isSkipCaseFor fp tn e = false) : countSkip fp tn [e] = 0 :=
  countSkip_eq_zero fp tn [e]
    (fun x hx => by rw [List.mem_singleton.mp hx]; exact h)

lemma protocol_core_processed (r : Reporter) (fp : String) (now : ℚ) :
    (protocol_core r fp now).1.processed_skips = r.processed_skips := by
  simp only [protocol_core]
  split_ifs with h1 h2
  · rfl
  · rfl
  · show (ensure_group_started
        (ensure_groups_discovered { r with
          test_files := r.test_files ++ [fp],
          test_results := aset r.test_results fp {} } fp []).1
        [fp]).1.processed_skips = r.processed_skips
    rw [ensure_started_processed, ensure_disc_processed]

lemma countSkip_protocol (fp tn : String) (r : Reporter) (fp2 : String)
    (now : ℚ) : countSkip fp tn (protocol_core r fp2 now).2 = 0 := by
  apply countSkip_eq_zero
  intro e he
  simp only [protocol_core] at he
  split_ifs at he with h1 h2
  · cases he
  · cases he
  · rcases List.mem_append.mp he with hm | hm
    · obtain ⟨gn, pn, rfl⟩ := ensure_disc_events_types _ _ _ _ hm
      rfl
    · obtain ⟨gn, pn, rfl⟩ := ensure_started_events_types _ _ _ hm
      rfl

/-- One non-configuration step: the worker flag stays off, the reporter stays
alive, the pair enters `processed_skips` exactly on its first qualifying skip
report, and the sink gains one SKIP test case for the pair exactly then. -/
lemma step_skip_count (fp tn : String) (a : Adapter) (r : Reporter)
    (c : Callback) (hw : a.is_worker = false) (hr : a.reporter = some r)
    (hc : isConfigOrUnconfig c = false) :
    ∃ r2, (step a c).is_worker = false ∧ (step a c).reporter = some r2 ∧
      ((fp, tn) ∈ r2.processed_skips ↔
        (fp, tn) ∈ r.processed_skips ∨ qualifyingSkipP fp tn c) ∧
      countSkip fp tn (step a c).sink =
        countSkip fp tn a.sink +
          (if (fp, tn) ∉ r.processed_skips ∧ qualifyingSkipP fp tn c then 1
          else 0) := by
  cases c with
  | configure env => simp [isConfigOrUnconfig] at hc
  | unconfigure => simp [isConfigOrUnconfig] at hc
  | collectreport rep =>
    have hst : step a (Callback.collectreport rep) =
        { a with sink := a.sink ++ collectreport_events rep } := by
      simp [step, pytest_collectreport, hw, hr]
    refine ⟨r, by rw [hst]; exact hw, by rw [hst]; exact hr,
      by simp [qualifyingSkipP], ?_⟩
    rw [hst]
    show countSkip fp tn (a.sink ++ collectreport_events rep) = _
    rw [countSkip_append]
    have h0 : countSkip fp tn (collectreport_events rep) = 0 := by
      apply countSkip_eq_zero
      intro e he
      simp only [collectreport_events] at he
      by_cases hf : rep.failed
      · rw [if_pos hf] at he
        rw [List.mem_singleton.mp he]
        rfl
      · rw [if_neg hf] at he
        cases he
    rw [h0]
    simp [qualifyingSkipP]
  | collection_finish n =>
    have hst : step a (Callback.collection_finish n) =
        { a with sink := a.sink ++ [Event.collectionFinish n] } := by
      simp [step, pytest_collection_finish, hw, hr]
    refine ⟨r, by rw [hst]; exact hw, by rw [hst]; exact hr,
      by simp [qualifyingSkipP], ?_⟩
    rw [hst]
    show countSkip fp tn (a.sink ++ [Event.collectionFinish n]) = _
    rw [countSkip_append,
      countSkip_single_nonskip fp tn (Event.collectionFinish n) rfl]
    simp [qualifyingSkipP]
  | runtest_protocol fp2 now =>
    have hst : step a (Callback.runtest_protocol fp2 now) =
        { a with
          reporter := some (protocol_core r fp2 now).1,
          sink := a.sink ++ (protocol_core r fp2 now).2 } := by
      simp [step, pytest_runtest_protocol, hw, hr]
    refine ⟨(protocol_core r fp2 now).1, by rw [hst]; exact hw,
      by rw [hst], ?_, ?_⟩
    · rw [protocol_core_processed]
      simp [qualifyingSkipP]
    · rw [hst]
      show countSkip fp tn (a.sink ++ (protocol_core r fp2 now).2) = _
      rw [countSkip_append, countSkip_protocol]
      simp [qualifyingSkipP]
  | runtest_logreport rep =>
    have hst : step a (Callback.runtest_logreport rep) =
        { a with
          reporter := some (logreport_core r rep).1,
          sink := a.sink ++ (logreport_core r rep).2 } := by
      simp [step, pytest_runtest_logreport, hw, hr]
    refine ⟨(logreport_core r rep).1, by rw [hst]; exact hw, by rw [hst],
      logreport_core_processed fp tn r rep, ?_⟩
    rw [hst]
    show countSkip fp tn (a.sink ++ (logreport_core r rep).2) = _
    rw [countSkip_append, countSkip_logreport]
  | sessionfinish now =>
    have hst : step a (Callback.sessionfinish now) =
        { a with sink := a.sink ++ sessionfinish_events r now } := by
      simp [step, pytest_sessionfinish, hw, hr]
    refine ⟨r, by rw [hst]; exact hw, by rw [hst]; exact hr,
      by simp [qualifyingSkipP], ?_⟩
    rw [hst]
    show countSkip fp tn (a.sink ++ sessionfinish_events r now) = _
    rw [countSkip_append, sessionfinish_events_skipfree]
    simp [qualifyingSkipP]

/-- Trace version: total SKIP emissions for the pair over a configure-free
trace from a live session. -/
lemma countSkip_runFrom (fp tn : String) :
    ∀ (tr : List Callback) (a : Adapter) (r : Reporter),
      a.is_worker = false → a.reporter = some r →
      (∀ c ∈ tr, isConfigOrUnconfig c = false) →
      countSkip fp tn (runFrom a tr).sink =
        countSkip fp tn a.sink +
          (if (fp, tn) ∉ r.processed_skips ∧
              (∃ c ∈ tr, qualifyingSkipP fp tn c) then 1 else 0) := by
  intro tr
  induction tr with
  | nil =>
    intro a r hw hr hnc
    simp [runFrom]
  | cons c cs ih =>
    intro a r hw hr hnc
    obtain ⟨r2, hw2, hr2, hiff, hcount⟩ :=
      step_skip_count fp tn a r c hw hr (hnc c (List.mem_cons_self _ _))
    rw [runFrom,
      ih (step a c) r2 hw2 hr2 (fun x hx => hnc x (List.mem_cons_of_mem _ hx)),
      hcount]
    by_cases hin : (fp, tn) ∈ r.processed_skips
    · have hin2 : (fp, tn) ∈ r2.processed_skips := hiff.mpr (Or.inl hin)
      rw [if_neg (fun h => h.1 hin), if_neg (fun h => h.1 hin2),
        if_neg (fun h => h.1 hin)]
    · by_cases hqc : qualifyingSkipP fp tn c
      · have hin2 : (fp, tn) ∈ r2.processed_skips := hiff.mpr (Or.inr hqc)
        rw [if_pos ⟨hin, hqc⟩, if_neg (fun h => h.1 hin2),
          if_pos ⟨hin, ⟨c, List.mem_cons_self _ _, hqc⟩⟩]
      · have hin2 : (fp, tn) ∉ r2.processed_skips := fun h => by
          rcases hiff.mp h with h2 | h2
          · exact hin h2
          · exact hqc h2
        rw [if_neg (fun h => hqc h.2)]
        by_cases hex : ∃ x ∈ cs, qualifyingSkipP fp tn x
        · obtain ⟨x, hx, hqx⟩ := hex
          rw [if_pos ⟨hin2, x, hx, hqx⟩,
            if_pos ⟨hin, x, List.mem_cons_of_mem _ hx, hqx⟩]
        · rw [if_neg (fun h => hex h.2), if_neg ?hnone]
          case hnone =>
            rintro ⟨-, x, hx, hqx⟩
            rcases List.mem_cons.mp hx with rfl | hx2
            · exact hqc hqx
            · exact hex ⟨x, hx2, hqx⟩

/-! ### C5 claim -/

/-- **C5 counterexample.** A leaf test whose skip is observed only in the
teardown phase produces zero SKIP `testCase` events, although a phase of the
test reported skipped — so "exactly one SKIP event no matter in which phase
the skip is first observed" is false for teardown. -/
theorem teardown_skip_emits_nothing :
    cxReportTeardown.outcome = Outcome.skipped ∧
    countSkip "f.py" "t"
      (run [Callback.configure none,
        Callback.runtest_logreport cxReportTeardown]).sink = 0 := by
  decide

/-- **C5 (amended).** Within one configured session (no re- or
un-configuration), for every (file, test-name) pair: exactly one SKIP
`testCase` event is emitted iff some log report for the pair is skipped in
the *setup or call* phase without an expected-failure marker, no matter how
many of those phases report skipped; otherwise (including teardown-only
skips) none is. -/
theorem single_skip_emission_per_pair (rest : List Callback) (fp tn : String)
    (hnc : ∀ c ∈ rest, isConfigOrUnconfig c = false) :
    countSkip fp tn (run (Callback.configure none :: rest)).sink =
      if ∃ c ∈ rest, qualifyingSkipP fp tn c then 1 else 0 := by
  have hstep : step initAdapter (Callback.configure none) =
      (⟨false, some { initReporter with
          current_test_file := some "__collection__" },
        [Event.collectionStart]⟩ : Adapter) := by
    simp [step, pytest_configure, is_xdist_worker, initAdapter]
  rw [run, runFrom, hstep,
    countSkip_runFrom fp tn rest _ _ rfl rfl hnc]
  simp [countSkip, isSkipCaseFor, initReporter]

/-- Witness for the amended C5: both setup and call report skipped, yet
exactly one SKIP event is emitted for the pair. -/
theorem single_skip_emission_per_pair_witness :
    countSkip "f.py" "t" (run (Callback.configure none ::
      [Callback.runtest_logreport wReportSkipSetup,
       Callback.runtest_logreport wReportSkipCall])).sink = 1 := by
  rw [single_skip_emission_per_pair
    [Callback.runtest_logreport wReportSkipSetup,
     Callback.runtest_logreport wReportSkipCall] "f.py" "t" (by decide)]
  decide

/-! ### C2: ancestor discovery and start precede every test case -/

lemma init_results_discovered (r0 : Reporter) (fp : String) :
    (init_results r0 fp).discovered_groups = r0.discovered_groups := by
  simp only [init_results]
  split_ifs <;> rfl

lemma init_results_starts (r0 : Reporter) (fp : String) :
    (init_results r0 fp).group_starts = r0.group_starts := by
  simp only [init_results]
  split_ifs <;> rfl

lemma trackTest_discovered (r : Reporter) (fp : String) (t : TestEntry) :
    (trackTest r fp t).discovered_groups = r.discovered_groups := by
  simp only [trackTest]
  split <;> rfl

lemma trackTest_starts (r : Reporter) (fp : String) (t : TestEntry) :
    (trackTest r fp t).group_starts = r.group_starts := by
  simp only [trackTest]
  split <;> rfl

lemma classify_call_discovered (r : Reporter) (rep : TestReport) (fp : String) :
    (classify_call r rep fp).2.discovered_groups = r.discovered_groups := by
  simp only [classify_call]
  split_ifs <;> rfl

lemma classify_call_starts (r : Reporter) (rep : TestReport) (fp : String) :
    (classify_call r rep fp).2.group_starts = r.group_starts := by
  simp only [classify_call]
  split_ifs <;> rfl

lemma disc_fold_starts (gs : List GroupInfo) (acc : Reporter × List Event) :
    (gs.foldl discStep acc).1.group_starts = acc.1.group_starts := by
  obtain ⟨d, hd, -⟩ := disc_fold_shape gs acc
  rw [hd]

lemma start_fold_discovered (idx : List Nat) (fp : String) (sc : List String)
    (acc : Reporter × List Event) :
    (idx.foldl (startStep fp sc) acc).1.discovered_groups =
      acc.1.discovered_groups := by
  obtain ⟨st, hst, -⟩ := start_fold_shape idx fp sc acc
  rw [hst]

lemma DiscInv_mono {d : List String} {s t : List Event} (h : DiscInv d s) :
    DiscInv d (s ++ t) := by
  intro gid hg
  obtain ⟨c, h1, h2, h3⟩ := h gid hg
  exact ⟨c, h1, h2, List.mem_append_left t h3⟩

lemma StartInv_mono {st : List String} {s t : List Event} (h : StartInv st s) :
    StartInv st (s ++ t) := by
  intro gid hg
  obtain ⟨c, h1, h2, h3⟩ := h gid hg
  exact ⟨c, h1, h2, List.mem_append_left t h3⟩

lemma goodChain_chainOf {fp : String} {sc : List String} (j : Nat)
    (hfp : ':' ∉ fp.data) (hsc : ∀ s ∈ sc, ':' ∉ s.data) :
    goodChain (fp :: sc.take j) := by
  refine ⟨by simp, ?_⟩
  intro s hs
  rcases List.mem_cons.mp hs with rfl | hs2
  · exact hfp
  · exact hsc s (List.take_subset j sc hs2)

/-- Discovery candidates carry the event payload of their own chain, and the
chain is delimiter-free when the inputs are. -/
lemma discover_group_event_shape {fp : String} {sc : List String}
    {g : GroupInfo} (hg : g ∈ discover_groups fp sc)
    (hfp : ':' ∉ fp.data) (hsc : ∀ s ∈ sc, ':' ∉ s.data) :
    Event.testGroupDiscovered g.name g.parent_names = discEventFor g.hierarchy ∧
    Event.testGroupStart g.name g.parent_names = startEventFor g.hierarchy ∧
    goodChain g.hierarchy := by
  rcases mem_discover_as_chain.mp hg with rfl | ⟨i, hi, rfl⟩
  · exact ⟨rfl, rfl, goodChain_chainOf 0 hfp hsc⟩
  · have hde : chainOf fp sc (i + 1) = chainOf fp sc i ++ [sc.getD i ""] :=
      chainOf_succ fp sc i hi
    refine ⟨?_, ?_, goodChain_chainOf (i + 1) hfp hsc⟩
    · show Event.testGroupDiscovered (sc.getD i "") (chainOf fp sc i) =
        discEventFor (chainOf fp sc (i + 1))
      simp [discEventFor, hde, List.getLastD_concat, List.dropLast_concat]
    · show Event.testGroupStart (sc.getD i "") (chainOf fp sc i) =
        startEventFor (chainOf fp sc (i + 1))
      simp [startEventFor, hde, List.getLastD_concat, List.dropLast_concat]

lemma disc_fold_inv (gs : List GroupInfo)
    (hsh : ∀ g ∈ gs,
      Event.testGroupDiscovered g.name g.parent_names = discEventFor g.hierarchy ∧
      goodChain g.hierarchy) :
    ∀ (acc : Reporter × List Event) (s : List Event),
      DiscInv acc.1.discovered_groups (s ++ acc.2) →
      DiscInv (gs.foldl discStep acc).1.discovered_groups
        (s ++ (gs.foldl discStep acc).2) := by
  induction gs with
  | nil => exact fun acc s h => h
  | cons g gs ih =>
    intro acc s hinv
    simp only [List.foldl_cons]
    refine ih (fun x hx => hsh x (List.mem_cons_of_mem _ hx)) (discStep acc g) s ?_
    simp only [discStep]
    by_cases hmem : get_group_id g.hierarchy ∈ acc.1.discovered_groups
    · rw [if_pos hmem]
      exact hinv
    · rw [if_neg hmem]
      intro gid hg
      rcases List.mem_cons.mp hg with rfl | hg2
      · obtain ⟨hev, hgood⟩ := hsh g (List.mem_cons_self _ _)
        refine ⟨g.hierarchy, hgood, rfl, ?_⟩
        rw [← hev, ← List.append_assoc]
        exact List.mem_append_right _ (List.mem_singleton.mpr rfl)
      · obtain ⟨c, h1, h2, h3⟩ := hinv gid hg2
        refine ⟨c, h1, h2, ?_⟩
        rw [← List.append_assoc]
        exact List.mem_append_left _ h3

lemma ensure_started_inv (r : Reporter) (h : List String) (s : List Event)
    (hgood : goodChain h)
    (hinv : StartInv r.group_starts s) :
    StartInv (ensure_group_started r h).1.group_starts
      (s ++ (ensure_group_started r h).2) := by
  by_cases hmem : get_group_id h ∈ r.group_starts
  · rw [ensure_started_already r h hmem]
    exact StartInv_mono hinv
  · obtain ⟨f, t, rfl⟩ := List.exists_cons_of_ne_nil hgood.1
    rw [ensure_started_fresh r f t hmem]
    intro gid hg
    rcases List.mem_cons.mp hg with rfl | hg2
    · exact ⟨f :: t, hgood, rfl,
        List.mem_append_right _ (List.mem_singleton.mpr rfl)⟩
    · obtain ⟨c, h1, h2, h3⟩ := hinv gid hg2
      exact ⟨c, h1, h2, List.mem_append_left _ h3⟩

lemma start_fold_inv (idx : List Nat) (fp : String) (sc : List String)
    (hfp : ':' ∉ fp.data) (hsc : ∀ s ∈ sc, ':' ∉ s.data) :
    ∀ (acc : Reporter × List Event) (s : List Event),
      StartInv acc.1.group_starts (s ++ acc.2) →
      StartInv (idx.foldl (startStep fp sc) acc).1.group_starts
        (s ++ (idx.foldl (startStep fp sc) acc).2) := by
  induction idx with
  | nil => exact fun acc s h => h
  | cons i idx ih =>
    intro acc s hinv
    simp only [List.foldl_cons]
    refine ih (startStep fp sc acc i) s ?_
    simp only [startStep]
    rw [← List.append_assoc]
    exact ensure_started_inv acc.1 (fp :: sc.take i) (s ++ acc.2)
      (goodChain_chainOf i hfp hsc) hinv

/-- Every chain prefix is a discovery candidate. -/
lemma chain_mem_discover (fp : String) (sc : List String) (j : Nat)
    (hj : j ≤ sc.length) :
    ∃ g ∈ discover_groups fp sc, g.hierarchy = chainOf fp sc j := by
  cases j with
  | zero => exact ⟨⟨chainOf fp sc 0, fp, []⟩, mem_discover_as_chain.mpr (Or.inl rfl), rfl⟩
  | succ i =>
    exact ⟨⟨chainOf fp sc (i + 1), sc.getD i "", chainOf fp sc i⟩,
      mem_discover_as_chain.mpr (Or.inr ⟨i, by omega, rfl⟩), rfl⟩

lemma ensure_disc_post_chain (r : Reporter) (fp : String) (sc : List String)
    (j : Nat) (hj : j ≤ sc.length) :
    get_group_id (chainOf fp sc j) ∈
      (ensure_groups_discovered r fp sc).1.discovered_groups := by
  obtain ⟨g, hg, hgh⟩ := chain_mem_discover fp sc j hj
  have := disc_fold_post (discover_groups fp sc) (r, []) g hg
  rw [hgh] at this
  exact this

lemma start_fold_post (idx : List Nat) (fp : String) (sc : List String) :
    ∀ acc : Reporter × List Event, ∀ i ∈ idx,
      get_group_id (fp :: sc.take i) ∈
        (idx.foldl (startStep fp sc) acc).1.group_starts := by
  induction idx with
  | nil => intro _ i hi; cases hi
  | cons j idx ih =>
    intro acc i hi
    simp only [List.foldl_cons]
    rcases List.mem_cons.mp hi with rfl | hi2
    · obtain ⟨st, hst, hsub⟩ := start_fold_shape idx fp sc (startStep fp sc acc i)
      rw [hst]
      refine hsub ?_
      simp only [startStep]
      exact mem_starts_after_ensure acc.1 (fp :: sc.take i)
    · exact ih (startStep fp sc acc j) i hi2

/-- From the registry invariant plus membership, recover the events for a
specific delimiter-free chain (injectivity of the join resolves the id). -/
lemma chain_events_of_inv {d st : List String} {sink : List Event}
    {c : List String} (hdisc : DiscInv d sink) (hstart : StartInv st sink)
    (hgood : goodChain c) (hd : get_group_id c ∈ d)
    (hs : get_group_id c ∈ st) :
    discEventFor c ∈ sink ∧ startEventFor c ∈ sink := by
  obtain ⟨c1, hg1, he1, hm1⟩ := hdisc _ hd
  obtain ⟨c2, hg2, he2, hm2⟩ := hstart _ hs
  have hc1 : c1 = c := get_group_id_inj hg1.1 hgood.1 hg1.2 hgood.2 he1
  have hc2 : c2 = c := get_group_id_inj hg2.1 hgood.1 hg2.2 hgood.2 he2
  exact ⟨hc1 ▸ hm1, hc2 ▸ hm2⟩

lemma sinkOK_append (s new : List Event) (hs : SinkOK s)
    (hnew : ∀ pre2 p post2, new = pre2 ++ Event.testCase p :: post2 →
      ∀ k, 0 < k → k ≤ p.parentNames.length →
        discEventFor (p.parentNames.take k) ∈ s ++ pre2 ∧
        startEventFor (p.parentNames.take k) ∈ s ++ pre2) :
    SinkOK (s ++ new) := by
  intro pre p post hsplit k hk1 hk2
  rcases List.append_eq_append_iff.mp hsplit with ⟨a2, hpre, hnew2⟩ |
    ⟨c2, hsplit2, hd2⟩
  · rw [hpre]
    exact hnew a2 p post hnew2 k hk1 hk2
  · cases c2 with
    | nil =>
      rw [List.append_nil] at hsplit2
      simp only [List.nil_append] at hd2
      have := hnew [] p post hd2.symm k hk1 hk2
      rw [List.append_nil] at this
      rw [← hsplit2]
      exact this
    | cons e c3 =>
      simp only [List.cons_append, List.cons.injEq] at hd2
      obtain ⟨he, -⟩ := hd2
      refine hs pre p c3 ?_ k hk1 hk2
      rw [hsplit2, ← he]

lemma hnew_of_no_testCase {s new : List Event}
    (h : ∀ p, Event.testCase p ∉ new) :
    ∀ pre2 p post2, new = pre2 ++ Event.testCase p :: post2 →
      ∀ k, 0 < k → k ≤ p.parentNames.length →
        discEventFor (p.parentNames.take k) ∈ s ++ pre2 ∧
        startEventFor (p.parentNames.take k) ∈ s ++ pre2 := by
  intro pre2 p post2 heq k _ _
  exfalso
  refine h p ?_
  rw [heq]
  exact List.mem_append_right pre2 (List.mem_cons_self _ _)

lemma split_concat_single {X : List Event} {ev : Event} {pre2 post2 : List Event}
    {p : TCPayload} (hX : ∀ q, Event.testCase q ∉ X)
    (heq : X ++ [ev] = pre2 ++ Event.testCase p :: post2) :
    pre2 = X ∧ ev = Event.testCase p := by
  rcases List.append_eq_append_iff.mp heq with ⟨a2, h1, h2⟩ | ⟨c2, h1, h2⟩
  · cases a2 with
    | nil =>
      rw [List.append_nil] at h1
      simp only [List.nil_append, List.cons.injEq] at h2
      exact ⟨h1, h2.1⟩
    | cons e a3 =>
      exfalso
      have := congrArg List.length h2
      simp at this
  · cases c2 with
    | nil =>
      rw [List.append_nil] at h1
      simp only [List.nil_append] at h2
      have h3 : ev = Event.testCase p := by
        have h4 := h2.symm
        simp only [List.cons.injEq] at h4
        exact h4.1
      exact ⟨h1.symm, h3⟩
    | cons e c3 =>
      exfalso
      simp only [List.cons_append, List.cons.injEq] at h2
      refine hX p ?_
      rw [h1, ← h2.1]
      exact List.mem_append_right _ (List.mem_cons_self _ _)

lemma not_testCase_disc_start {d1 d2 : List Event} {r2 : Reporter}
    {fp : String} {sc : List String}
    (h1 : d1 = (ensure_groups_discovered r2 fp sc).2)
    (h2 : d2 = (start_all_ancestors (ensure_groups_discovered r2 fp sc).1 fp sc).2) :
    ∀ q, Event.testCase q ∉ d1 ++ d2 := by
  intro q hq
  rcases List.mem_append.mp hq with hm | hm
  · rw [h1] at hm
    obtain ⟨gn, pn, heq⟩ := ensure_disc_events_types _ _ _ _ hm
    cases heq
  · rw [h2] at hm
    obtain ⟨gn, pn, heq⟩ := start_all_events_types _ _ _ _ hm
    cases heq

/-- The discovery-plus-start block of both log-report branches: it preserves
the registry invariant (relative to the grown sink) and puts discovery and
start events for every non-empty prefix of `fp :: sc` into the emitted
events. -/
lemma disc_start_block (r2 : Reporter) (fp : String) (sc : List String)
    (s : List Event) (hfp : ':' ∉ fp.data) (hsc : ∀ x ∈ sc, ':' ∉ x.data)
    (hdisc : DiscInv r2.discovered_groups s)
    (hstart : StartInv r2.group_starts s) :
    DiscInv (start_all_ancestors (ensure_groups_discovered r2 fp sc).1 fp
        sc).1.discovered_groups
      (s ++ ((ensure_groups_discovered r2 fp sc).2 ++
        (start_all_ancestors (ensure_groups_discovered r2 fp sc).1 fp sc).2)) ∧
    StartInv (start_all_ancestors (ensure_groups_discovered r2 fp sc).1 fp
        sc).1.group_starts
      (s ++ ((ensure_groups_discovered r2 fp sc).2 ++
        (start_all_ancestors (ensure_groups_discovered r2 fp sc).1 fp sc).2)) ∧
    (∀ k, 0 < k → k ≤ sc.length + 1 →
      discEventFor ((fp :: sc).take k) ∈
        s ++ ((ensure_groups_discovered r2 fp sc).2 ++
          (start_all_ancestors (ensure_groups_discovered r2 fp sc).1 fp sc).2) ∧
      startEventFor ((fp :: sc).take k) ∈
        s ++ ((ensure_groups_discovered r2 fp sc).2 ++
          (start_all_ancestors (ensure_groups_discovered r2 fp sc).1 fp sc).2)) := by
  have hsh : ∀ g ∈ discover_groups fp sc,
      Event.testGroupDiscovered g.name g.parent_names =
        discEventFor g.hierarchy ∧ goodChain g.hierarchy := by
    intro g hg
    obtain ⟨e1, -, e3⟩ := discover_group_event_shape hg hfp hsc
    exact ⟨e1, e3⟩
  have hd1 : DiscInv (ensure_groups_discovered r2 fp sc).1.discovered_groups
      (s ++ (ensure_groups_discovered r2 fp sc).2) := by
    refine disc_fold_inv (discover_groups fp sc) hsh (r2, []) s ?_
    rw [List.append_nil]
    exact hdisc
  have hs1 : StartInv (ensure_groups_discovered r2 fp sc).1.group_starts
      (s ++ (ensure_groups_discovered r2 fp sc).2) := by
    have heq : (ensure_groups_discovered r2 fp sc).1.group_starts =
        r2.group_starts := by
      simp only [ensure_groups_discovered]
      rw [disc_fold_starts]
    rw [heq]
    exact StartInv_mono hstart
  have hs2 : StartInv (start_all_ancestors (ensure_groups_discovered r2 fp sc).1
      fp sc).1.group_starts
      ((s ++ (ensure_groups_discovered r2 fp sc).2) ++
        (start_all_ancestors (ensure_groups_discovered r2 fp sc).1 fp sc).2) := by
    refine start_fold_inv (List.range (sc.length + 1)) fp sc hfp hsc
      ((ensure_groups_discovered r2 fp sc).1, []) _ ?_
    rw [List.append_nil]
    exact hs1
  have hd2 : DiscInv (start_all_ancestors (ensure_groups_discovered r2 fp sc).1
      fp sc).1.discovered_groups
      ((s ++ (ensure_groups_discovered r2 fp sc).2) ++
        (start_all_ancestors (ensure_groups_discovered r2 fp sc).1 fp sc).2) := by
    have heq : (start_all_ancestors (ensure_groups_discovered r2 fp sc).1 fp
        sc).1.discovered_groups =
        (ensure_groups_discovered r2 fp sc).1.discovered_groups := by
      simp only [start_all_ancestors]
      rw [start_fold_discovered]
    rw [heq]
    exact DiscInv_mono hd1
  rw [← List.append_assoc]
  refine ⟨hd2, hs2, ?_⟩
  intro k hk1 hk2
  obtain ⟨j, rfl⟩ : ∃ j, k = j + 1 := ⟨k - 1, by omega⟩
  have hj : j ≤ sc.length := by omega
  have htk : (fp :: sc).take (j + 1) = chainOf fp sc j := by
    simp [chainOf]
  rw [htk]
  have hdm : get_group_id (chainOf fp sc j) ∈
      (start_all_ancestors (ensure_groups_discovered r2 fp sc).1 fp
        sc).1.discovered_groups := by
    have heq : (start_all_ancestors (ensure_groups_discovered r2 fp sc).1 fp
        sc).1.discovered_groups =
        (ensure_groups_discovered r2 fp sc).1.discovered_groups := by
      simp only [start_all_ancestors]
      rw [start_fold_discovered]
    rw [heq]
    exact ensure_disc_post_chain r2 fp sc j hj
  have hsm : get_group_id (chainOf fp sc j) ∈
      (start_all_ancestors (ensure_groups_discovered r2 fp sc).1 fp
        sc).1.group_starts := by
    simp only [start_all_ancestors]
    exact start_fold_post (List.range (sc.length + 1)) fp sc _ j
      (List.mem_range.mpr (by omega))
  exact chain_events_of_inv hd2 hs2 (goodChain_chainOf j hfp hsc) hdm hsm

lemma ite_bump_discovered (c : Prop) [Decidable c] (r : Reporter) (fp : String)
    (f : Results → Results) :
    (if c then bumpResults r fp f else r).discovered_groups =
      r.discovered_groups := by
  split_ifs <;> rfl

lemma ite_bump_starts (c : Prop) [Decidable c] (r : Reporter) (fp : String)
    (f : Results → Results) :
    (if c then bumpResults r fp f else r).group_starts = r.group_starts := by
  split_ifs <;> rfl

/-- The skip branch preserves the registry invariant and emits discovery and
start events for every prefix of the payload's parent chain ahead of its
test-case event. -/
lemma skip_branch_C2 (r : Reporter) (rep : TestReport) (s : List Event)
    (hfp : ':' ∉ (parse_test_hierarchy rep.nodeid).1.data)
    (hsc : ∀ x ∈ (parse_test_hierarchy rep.nodeid).2.1, ':' ∉ x.data)
    (hdisc : DiscInv r.discovered_groups s)
    (hstart : StartInv r.group_starts s) :
    (DiscInv (skip_branch r rep).1.discovered_groups
        (s ++ (skip_branch r rep).2) ∧
      StartInv (skip_branch r rep).1.group_starts
        (s ++ (skip_branch r rep).2)) ∧
    (∀ pre2 p post2,
      (skip_branch r rep).2 = pre2 ++ Event.testCase p :: post2 →
      ∀ k, 0 < k → k ≤ p.parentNames.length →
        discEventFor (p.parentNames.take k) ∈ s ++ pre2 ∧
        startEventFor (p.parentNames.take k) ∈ s ++ pre2) := by
  have hblock := disc_start_block
    (bumpResults { r with processed_skips :=
        ((parse_test_hierarchy rep.nodeid).1,
          (parse_test_hierarchy rep.nodeid).2.2) :: r.processed_skips }
      (parse_test_hierarchy rep.nodeid).1
      (fun res => { res with skipped := res.skipped + 1 }))
    (parse_test_hierarchy rep.nodeid).1 (parse_test_hierarchy rep.nodeid).2.1
    s hfp hsc hdisc hstart
  obtain ⟨hbd, hbs, hbk⟩ := hblock
  simp only [skip_branch]
  refine ⟨⟨?_, ?_⟩, ?_⟩
  · rw [trackTest_discovered, ← List.append_assoc]
    exact DiscInv_mono hbd
  · rw [trackTest_starts, ← List.append_assoc]
    exact StartInv_mono hbs
  · intro pre2 p post2 heq k hk1 hk2
    obtain ⟨hpre, hev⟩ := split_concat_single
      (not_testCase_disc_start rfl rfl) heq
    injection hev with hpay
    subst hpay
    subst hpre
    exact hbk k hk1 (by simpa [build_hierarchy_from_file] using hk2)

/-- The call branch preserves the registry invariant and emits discovery and
start events for every prefix of the payload's parent chain ahead of its
test-case event. -/
lemma call_branch_C2 (r : Reporter) (rep : TestReport) (s : List Event)
    (hfp : ':' ∉ (parse_test_hierarchy rep.nodeid).1.data)
    (hsc : ∀ x ∈ (parse_test_hierarchy rep.nodeid).2.1, ':' ∉ x.data)
    (hdisc : DiscInv r.discovered_groups s)
    (hstart : StartInv r.group_starts s) :
    (DiscInv (call_branch r rep).1.discovered_groups
        (s ++ (call_branch r rep).2) ∧
      StartInv (call_branch r rep).1.group_starts
        (s ++ (call_branch r rep).2)) ∧
    (∀ pre2 p post2,
      (call_branch r rep).2 = pre2 ++ Event.testCase p :: post2 →
      ∀ k, 0 < k → k ≤ p.parentNames.length →
        discEventFor (p.parentNames.take k) ∈ s ++ pre2 ∧
        startEventFor (p.parentNames.take k) ∈ s ++ pre2) := by
  have hdisc0 : DiscInv (classify_call r rep
      (parse_test_hierarchy rep.nodeid).1).2.discovered_groups s := by
    rw [classify_call_discovered]
    exact hdisc
  have hstart0 : StartInv (classify_call r rep
      (parse_test_hierarchy rep.nodeid).1).2.group_starts s := by
    rw [classify_call_starts]
    exact hstart
  have hblock := disc_start_block
    (classify_call r rep (parse_test_hierarchy rep.nodeid).1).2
    (parse_test_hierarchy rep.nodeid).1 (parse_test_hierarchy rep.nodeid).2.1
    s hfp hsc hdisc0 hstart0
  obtain ⟨hbd, hbs, hbk⟩ := hblock
  simp only [call_branch]
  refine ⟨⟨?_, ?_⟩, ?_⟩
  · rw [trackTest_discovered, ite_bump_discovered, ← List.append_assoc]
    exact DiscInv_mono hbd
  · rw [trackTest_starts, ite_bump_starts, ← List.append_assoc]
    exact StartInv_mono hbs
  · intro pre2 p post2 heq k hk1 hk2
    obtain ⟨hpre, hev⟩ := split_concat_single
      (not_testCase_disc_start rfl rfl) heq
    injection hev with hpay
    subst hpay
    subst hpre
    exact hbk k hk1 (by simpa [build_hierarchy_from_file] using hk2)

lemma ensure_started_discovered (r : Reporter) (h : List String) :
    (ensure_group_started r h).1.discovered_groups = r.discovered_groups := by
  obtain ⟨st, heq, -⟩ := ensure_started_shape r h
  rw [heq]

lemma ensure_disc_starts (r : Reporter) (fp : String) (sc : List String) :
    (ensure_groups_discovered r fp sc).1.group_starts = r.group_starts := by
  simp only [ensure_groups_discovered]
  rw [disc_fold_starts]

/-- The discover-then-start pattern of `pytest_runtest_protocol` preserves
the registry invariant. -/
lemma disc_single_start_block (r2 : Reporter) (fp : String) (s : List Event)
    (hfp : ':' ∉ fp.data)
    (hdisc : DiscInv r2.discovered_groups s)
    (hstart : StartInv r2.group_starts s) :
    DiscInv (ensure_group_started (ensure_groups_discovered r2 fp []).1
        [fp]).1.discovered_groups
      (s ++ ((ensure_groups_discovered r2 fp []).2 ++
        (ensure_group_started (ensure_groups_discovered r2 fp []).1 [fp]).2)) ∧
    StartInv (ensure_group_started (ensure_groups_discovered r2 fp []).1
        [fp]).1.group_starts
      (s ++ ((ensure_groups_discovered r2 fp []).2 ++
        (ensure_group_started (ensure_groups_discovered r2 fp []).1 [fp]).2)) := by
  have hsh : ∀ g ∈ discover_groups fp ([] : List String),
      Event.testGroupDiscovered g.name g.parent_names =
        discEventFor g.hierarchy ∧ goodChain g.hierarchy := by
    intro g hgm
    obtain ⟨e1, -, e3⟩ := discover_group_event_shape hgm hfp
      (by intro x hx; cases hx)
    exact ⟨e1, e3⟩
  have hd1 : DiscInv (ensure_groups_discovered r2 fp []).1.discovered_groups
      (s ++ (ensure_groups_discovered r2 fp []).2) := by
    refine disc_fold_inv (discover_groups fp []) hsh (r2, []) s ?_
    rw [List.append_nil]
    exact hdisc
  have hs1 : StartInv (ensure_groups_discovered r2 fp []).1.group_starts
      (s ++ (ensure_groups_discovered r2 fp []).2) := by
    rw [ensure_disc_starts]
    exact StartInv_mono hstart
  have hgood : goodChain [fp] := by
    refine ⟨by simp, ?_⟩
    intro x hx
    rw [List.mem_singleton.mp hx]
    exact hfp
  have hs2 := ensure_started_inv (ensure_groups_discovered r2 fp []).1 [fp]
    (s ++ (ensure_groups_discovered r2 fp []).2) hgood hs1
  have hd2 : DiscInv (ensure_group_started (ensure_groups_discovered r2 fp []).1
      [fp]).1.discovered_groups
      ((s ++ (ensure_groups_discovered r2 fp []).2) ++
        (ensure_group_started (ensure_groups_discovered r2 fp []).1 [fp]).2) := by
    rw [ensure_started_discovered]
    exact DiscInv_mono hd1
  rw [← List.append_assoc]
  exact ⟨hd2, hs2⟩

lemma protocol_C2 (r : Reporter) (fp2 : String) (now : ℚ) (s : List Event)
    (hfp : ':' ∉ fp2.data)
    (hdisc : DiscInv r.discovered_groups s)
    (hstart : StartInv r.group_starts s) :
    DiscInv (protocol_core r fp2 now).1.discovered_groups
        (s ++ (protocol_core r fp2 now).2) ∧
    StartInv (protocol_core r fp2 now).1.group_starts
        (s ++ (protocol_core r fp2 now).2) := by
  simp only [protocol_core]
  split_ifs with hmem hcur
  · exact ⟨by rw [List.append_nil]; exact hdisc,
      by rw [List.append_nil]; exact hstart⟩
  · exact ⟨by rw [List.append_nil]; exact hdisc,
      by rw [List.append_nil]; exact hstart⟩
  · exact disc_single_start_block
      { r with
        test_files := r.test_files ++ [fp2],
        test_results := aset r.test_results fp2 {} } fp2 s hfp hdisc hstart

lemma protocol_core_no_testCase (r : Reporter) (fp : String) (now : ℚ) :
    ∀ p, Event.testCase p ∉ (protocol_core r fp now).2 := by
  intro p hp
  simp only [protocol_core] at hp
  split_ifs at hp
  · cases hp
  · cases hp
  · rcases List.mem_append.mp hp with hm | hm
    · obtain ⟨gn, pn, heq⟩ := ensure_disc_events_types _ _ _ _ hm
      cases heq
    · obtain ⟨gn, pn, heq⟩ := ensure_started_events_types _ _ _ hm
      cases heq

lemma sessionfinish_no_testCase (r : Reporter) (now : ℚ) :
    ∀ p, Event.testCase p ∉ sessionfinish_events r now := by
  intro p hp
  simp only [sessionfinish_events, List.mem_map] at hp
  obtain ⟨x, -, heq⟩ := hp
  cases heq

lemma logreport_C2 (r : Reporter) (rep : TestReport) (s : List Event)
    (hfp : ':' ∉ (parse_test_hierarchy rep.nodeid).1.data)
    (hsc : ∀ x ∈ (parse_test_hierarchy rep.nodeid).2.1, ':' ∉ x.data)
    (hdisc : DiscInv r.discovered_groups s)
    (hstart : StartInv r.group_starts s) :
    (DiscInv (logreport_core r rep).1.discovered_groups
        (s ++ (logreport_core r rep).2) ∧
      StartInv (logreport_core r rep).1.group_starts
        (s ++ (logreport_core r rep).2)) ∧
    (∀ pre2 p post2,
      (logreport_core r rep).2 = pre2 ++ Event.testCase p :: post2 →
      ∀ k, 0 < k → k ≤ p.parentNames.length →
        discEventFor (p.parentNames.take k) ∈ s ++ pre2 ∧
        startEventFor (p.parentNames.take k) ∈ s ++ pre2) := by
  have hdi : DiscInv (init_results r
      (parse_test_hierarchy rep.nodeid).1).discovered_groups s := by
    rw [init_results_discovered]
    exact hdisc
  have hsi : StartInv (init_results r
      (parse_test_hierarchy rep.nodeid).1).group_starts s := by
    rw [init_results_starts]
    exact hstart
  simp only [logreport_core]
  split_ifs with h1 h2 h3
  · refine ⟨⟨by rw [List.append_nil]; exact hdi,
      by rw [List.append_nil]; exact hsi⟩, ?_⟩
    intro pre2 p post2 heq k _ _
    exfalso
    have hlen := congrArg List.length heq
    simp only [List.length_nil, List.length_append, List.length_cons] at hlen
    omega
  · exact skip_branch_C2 _ rep s hfp hsc hdi hsi
  · exact call_branch_C2 _ rep s hfp hsc hdi hsi
  · refine ⟨⟨by rw [List.append_nil]; exact hdi,
      by rw [List.append_nil]; exact hsi⟩, ?_⟩
    intro pre2 p post2 heq k _ _
    exfalso
    have hlen := congrArg List.length heq
    simp only [List.length_nil, List.length_append, List.length_cons] at hlen
    omega

/-- One callback preserves the registry invariant and the ancestor ordering
of the sink, provided its derived segments are delimiter-free. -/
lemma step_C2 (a : Adapter) (c : Callback) (hg : goodCallback c)
    (ha : AInv a) (hsok : SinkOK a.sink) :
    AInv (step a c) ∧ SinkOK (step a c).sink := by
  cases c with
  | configure env =>
    by_cases hw : is_xdist_worker env
    · have hst : step a (Callback.configure env) = { a with is_worker := true } := by
        simp [step, pytest_configure, hw]
      rw [hst]
      exact ⟨fun r hr => ha r hr, hsok⟩
    · have hst : step a (Callback.configure env) =
          { is_worker := false,
            reporter := some { initReporter with
              current_test_file := some "__collection__" },
            sink := a.sink ++ [Event.collectionStart] } := by
        simp [step, pytest_configure, hw]
      rw [hst]
      constructor
      · intro r hr
        have hr2 := Option.some.inj hr
        constructor
        · intro gid hgid
          rw [← hr2] at hgid
          exact absurd hgid (List.not_mem_nil _)
        · intro gid hgid
          rw [← hr2] at hgid
          exact absurd hgid (List.not_mem_nil _)
      · refine sinkOK_append _ _ hsok (hnew_of_no_testCase ?_)
        intro p hp
        have heq := List.mem_singleton.mp hp
        cases heq
  | collectreport rep =>
    by_cases hw : a.is_worker
    · have hst : step a (Callback.collectreport rep) = a := by
        simp [step, pytest_collectreport, hw]
      rw [hst]
      exact ⟨ha, hsok⟩
    · cases hrep : a.reporter with
      | none =>
        have hst : step a (Callback.collectreport rep) = a := by
          simp [step, pytest_collectreport, hw, hrep]
        rw [hst]
        exact ⟨ha, hsok⟩
      | some r =>
        have hst : step a (Callback.collectreport rep) =
            { a with sink := a.sink ++ collectreport_events rep } := by
          simp [step, pytest_collectreport, hw, hrep]
        rw [hst]
        constructor
        · intro r' hr'
          obtain ⟨h1, h2⟩ := ha r' hr'
          exact ⟨DiscInv_mono h1, StartInv_mono h2⟩
        · refine sinkOK_append _ _ hsok (hnew_of_no_testCase ?_)
          intro p hp
          by_cases hf : rep.failed
          · simp only [collectreport_events, if_pos hf] at hp
            have heq := List.mem_singleton.mp hp
            cases heq
          · simp only [collectreport_events, if_neg hf] at hp
            exact absurd hp (List.not_mem_nil _)
  | collection_finish n =>
    by_cases hw : a.is_worker
    · have hst : step a (Callback.collection_finish n) = a := by
        simp [step, pytest_collection_finish, hw]
      rw [hst]
      exact ⟨ha, hsok⟩
    · cases hrep : a.reporter with
      | none =>
        have hst : step a (Callback.collection_finish n) = a := by
          simp [step, pytest_collection_finish, hw, hrep]
        rw [hst]
        exact ⟨ha, hsok⟩
      | some r =>
        have hst : step a (Callback.collection_finish n) =
            { a with sink := a.sink ++ [Event.collectionFinish n] } := by
          simp [step, pytest_collection_finish, hw, hrep]
        rw [hst]
        constructor
        · intro r' hr'
          obtain ⟨h1, h2⟩ := ha r' hr'
          exact ⟨DiscInv_mono h1, StartInv_mono h2⟩
        · refine sinkOK_append _ _ hsok (hnew_of_no_testCase ?_)
          intro p hp
          have heq := List.mem_singleton.mp hp
          cases heq
  | runtest_protocol fp now =>
    by_cases hw : a.is_worker
    · have hst : step a (Callback.runtest_protocol fp now) = a := by
        simp [step, pytest_runtest_protocol, hw]
      rw [hst]
      exact ⟨ha, hsok⟩
    · cases hrep : a.reporter with
      | none =>
        have hst : step a (Callback.runtest_protocol fp now) = a := by
          simp [step, pytest_runtest_protocol, hw, hrep]
        rw [hst]
        exact ⟨ha, hsok⟩
      | some r =>
        have hst : step a (Callback.runtest_protocol fp now) =
            { a with
              reporter := some (protocol_core r fp now).1,
              sink := a.sink ++ (protocol_core r fp now).2 } := by
          simp [step, pytest_runtest_protocol, hw, hrep]
        rw [hst]
        obtain ⟨h1, h2⟩ := ha r hrep
        constructor
        · intro r' hr'
          have hr2 := Option.some.inj hr'
          have hc := protocol_C2 r fp now a.sink hg h1 h2
          rw [hr2] at hc
          exact hc
        · refine sinkOK_append _ _ hsok (hnew_of_no_testCase ?_)
          exact protocol_core_no_testCase r fp now
  | runtest_logreport rep =>
    by_cases hw : a.is_worker
    · have hst : step a (Callback.runtest_logreport rep) = a := by
        simp [step, pytest_runtest_logreport, hw]
      rw [hst]
      exact ⟨ha, hsok⟩
    · cases hrep : a.reporter with
      | none =>
        have hst : step a (Callback.runtest_logreport rep) = a := by
          simp [step, pytest_runtest_logreport, hw, hrep]
        rw [hst]
        exact ⟨ha, hsok⟩
      | some r =>
        obtain ⟨hfp, hsc⟩ := hg
        have hst : step a (Callback.runtest_logreport rep) =
            { a with
              reporter := some (logreport_core r rep).1,
              sink := a.sink ++ (logreport_core r rep).2 } := by
          simp [step, pytest_runtest_logreport, hw, hrep]
        rw [hst]
        obtain ⟨h1, h2⟩ := ha r hrep
        have hlr := logreport_C2 r rep a.sink hfp hsc h1 h2
        constructor
        · intro r' hr'
          have hr2 := Option.some.inj hr'
          have hc := hlr.1
          rw [hr2] at hc
          exact hc
        · exact sinkOK_append _ _ hsok hlr.2
  | sessionfinish now =>
    by_cases hw : a.is_worker
    · have hst : step a (Callback.sessionfinish now) = a := by
        simp [step, pytest_sessionfinish, hw]
      rw [hst]
      exact ⟨ha, hsok⟩
    · cases hrep : a.reporter with
      | none =>
        have hst : step a (Callback.sessionfinish now) = a := by
          simp [step, pytest_sessionfinish, hw, hrep]
        rw [hst]
        exact ⟨ha, hsok⟩
      | some r =>
        have hst : step a (Callback.sessionfinish now) =
            { a with sink := a.sink ++ sessionfinish_events r now } := by
          simp [step, pytest_sessionfinish, hw, hrep]
        rw [hst]
        constructor
        · intro r' hr'
          obtain ⟨h1, h2⟩ := ha r' hr'
          exact ⟨DiscInv_mono h1, StartInv_mono h2⟩
        · refine sinkOK_append _ _ hsok (hnew_of_no_testCase ?_)
          exact sessionfinish_no_testCase r now
  | unconfigure =>
    by_cases hw : a.is_worker
    · have hst : step a Callback.unconfigure = a := by
        simp [step, pytest_unconfigure, hw]
      rw [hst]
      exact ⟨ha, hsok⟩
    · have hst : step a Callback.unconfigure = { a with reporter := none } := by
        simp [step, pytest_unconfigure, hw]
      rw [hst]
      refine ⟨?_, hsok⟩
      intro r hr
      exact Option.noConfusion hr

lemma runFrom_C2 (tr : List Callback) :
    ∀ a : Adapter, (∀ c ∈ tr, goodCallback c) → AInv a → SinkOK a.sink →
      AInv (runFrom a tr) ∧ SinkOK (runFrom a tr).sink := by
  induction tr with
  | nil => exact fun a _ h1 h2 => ⟨h1, h2⟩
  | cons c cs ih =>
    intro a hg h1 h2
    obtain ⟨h1', h2'⟩ := step_C2 a c (hg c (List.mem_cons_self _ _)) h1 h2
    exact ih (step a c) (fun x hx => hg x (List.mem_cons_of_mem _ hx)) h1' h2'

/-- C2 (counterexample): the ancestor-before-leaf ordering is NOT
unconditional.  In the trace `cxTraceC2` the file path `a:b` of the first
report joins to the identity `a:b`, the same string the chain
`["a", "b"]` of the second report joins to, so discovery and start of the
suite group `b` under file `a` are suppressed: the sink ends with a
`testCase` whose `parentNames` is `["a", "b"]`, yet no `testGroupDiscovered`
or `testGroupStart` event for that full chain appears anywhere in the
sink. -/
theorem delimiter_collision_breaks_ancestor_order :
    (run cxTraceC2).sink = cxPreC2 ++ [Event.testCase cxPayloadC2] ∧
    cxPayloadC2.parentNames.length = 2 ∧
    discEventFor (cxPayloadC2.parentNames.take 2) ∉ (run cxTraceC2).sink ∧
    startEventFor (cxPayloadC2.parentNames.take 2) ∉ (run cxTraceC2).sink := by
  decide

/-- C2: ancestor-before-leaf ordering in the event stream, on traces whose
derived group-name segments are free of the `:` join delimiter: wherever a
`testCase` event splits the sink of a run, a `testGroupDiscovered` and a
`testGroupStart` event for every non-empty prefix of its `parentNames`
chain occur strictly earlier in emission order. -/
theorem ancestors_before_testCase (tr : List Callback)
    (hg : ∀ c ∈ tr, goodCallback c)
    (pre post : List Event) (p : TCPayload)
    (hsplit : (run tr).sink = pre ++ Event.testCase p :: post)
    (k : Nat) (hk1 : 0 < k) (hk2 : k ≤ p.parentNames.length) :
    discEventFor (p.parentNames.take k) ∈ pre ∧
    startEventFor (p.parentNames.take k) ∈ pre := by
  have h0 : AInv initAdapter := fun r hr => Option.noConfusion hr
  have h1 : SinkOK ([] : List Event) := by
    intro pre2 p2 post2 heq k2 hk1' hk2'
    exfalso
    have hlen := congrArg List.length heq
    simp only [List.length_nil, List.length_append, List.length_cons] at hlen
    omega
  exact (runFrom_C2 tr initAdapter hg h0 h1).2 pre p post hsplit k hk1 hk2

theorem ancestors_before_testCase_witness :
    discEventFor (wPayloadC2.parentNames.take 2) ∈ wPreC2 ∧
    startEventFor (wPayloadC2.parentNames.take 2) ∈ wPreC2 :=
  ancestors_before_testCase wTraceC2 (by decide) wPreC2 [] wPayloadC2
    (by decide) 2 (by decide) (by decide)

end ThreePio
